import Mathlib

/-!
Verification of the contanki binding-profile and controller-identification core.

The Python modules `contanki/profile.py` and `contanki/controller.py` are embedded
shallowly: Python `dict`s become insertion-ordered association lists, `defaultdict(str)`
reads become a value-plus-extended-dict pair, exceptions become `Except`/`Option`, and
the `or`/`and` truthiness chains of the source are unfolded into the conditionals they
short-circuit to.  Static data files (`controllers.json`, `controllerIDs.json`) and the
`utils` module (`State`, `int_keys`, `slugify`) are not part of the sources; where a
definition depends on them it is modelled from the spec and documented as such.
-/

namespace Contanki

/-! ### Association lists modelling Python dicts -/

/-- Lookup in an insertion-ordered association list (Python `d[k]` read / `k in d`). -/
def alookup {α β : Type} [DecidableEq α] : List (α × β) → α → Option β
  | [], _ => none
  | (k', v) :: rest, k => if k' = k then some v else alookup rest k

/-- Python `d[k] = v`: replace in place when the key is present (keeping its position),
otherwise append at the end — Python dicts preserve insertion order. -/
def aset {α β : Type} [DecidableEq α] : List (α × β) → α → β → List (α × β)
  | [], k, v => [(k, v)]
  | (k', v') :: rest, k, v =>
      if k' = k then (k, v) :: rest else (k', v') :: aset rest k v

/-- Python `del d[k]`: remove the entry (first occurrence; keys are unique in a dict). -/
def adel {α β : Type} [DecidableEq α] : List (α × β) → α → List (α × β)
  | [], _ => []
  | (k', v') :: rest, k => if k' = k then rest else (k', v') :: adel rest k

/-- The keys of an association list, in order. -/
def akeys {α β : Type} (l : List (α × β)) : List α := l.map Prod.fst

theorem alookup_aset_self {α β : Type} [DecidableEq α] (l : List (α × β)) (k : α) (v : β) :
    alookup (aset l k v) k = some v := by
  induction l with
  | nil => simp [aset, alookup]
  | cons hd tl ih =>
      obtain ⟨k', v'⟩ := hd
      by_cases h : k' = k <;> simp [aset, alookup, h, ih]

theorem alookup_aset_ne {α β : Type} [DecidableEq α] (l : List (α × β)) (k k' : α) (v : β)
    (h : k ≠ k') : alookup (aset l k v) k' = alookup l k' := by
  induction l with
  | nil => simp [aset, alookup, h]
  | cons hd tl ih =>
      obtain ⟨k₀, v₀⟩ := hd
      by_cases h₀ : k₀ = k
      · subst h₀; simp [aset, alookup, h]
      · simp [aset, alookup, h₀, ih]

/-- Writing the value a key already holds leaves the dict unchanged. -/
theorem aset_eq_of_alookup {α β : Type} [DecidableEq α] (l : List (α × β)) (k : α) (v : β)
    (h : alookup l k = some v) : aset l k v = l := by
  induction l with
  | nil => simp [alookup] at h
  | cons hd tl ih =>
      obtain ⟨k₀, v₀⟩ := hd
      by_cases h₀ : k₀ = k
      · subst h₀
        simp [alookup] at h
        simp [aset, h]
      · simp [alookup, h₀] at h
        simp [aset, h₀, ih h]

theorem alookup_append {α β : Type} [DecidableEq α] (l₁ l₂ : List (α × β)) (k : α) :
    alookup (l₁ ++ l₂) k =
      (match alookup l₁ k with | some v => some v | none => alookup l₂ k) := by
  induction l₁ with
  | nil => simp [alookup]
  | cons hd tl ih =>
      obtain ⟨k₀, v₀⟩ := hd
      by_cases h₀ : k₀ = k <;> simp [alookup, h₀, ih]

/-! ### The binding profile (`contanki/profile.py`) -/

/-- Modelled from the spec: the enumerated state set (`utils.State` is not in the
sources).  Section 3 of the spec enumerates `deckBrowser`, `overview`, `question`,
`answer`, `review`, `dialog`, `config`, `NoFocus`; the layered-inheritance description
and `convert_profile` additionally use the storable base-layer key `all`. -/
def StateSet : List String :=
  ["all", "deckBrowser", "overview", "question", "answer", "review", "dialog", "config",
   "NoFocus"]

/-- The concrete (runtime-reported) states: the enumerated set without the two pure
layer keys `all` and `review`. -/
def concreteStates : List String :=
  ["deckBrowser", "overview", "question", "answer", "dialog", "config", "NoFocus"]

/-- A binding key: (state, button index), the key type of `Profile.bindings`. -/
abbrev BKey := String × Nat

/-- The in-memory `Profile` object.  `bindings` is the `defaultdict(str)` keyed by
(state, button); `controller` models the `_controller` attribute — `none` means the
attribute was never assigned (the setter silently refuses strings that are not catalog
keys), `some c` means it holds the resolved `Controller` for catalog key `c`.
`quickSelect` is the opaque `quick_select` payload owned by the UI layer. -/
structure Profile where
  bindings : List (BKey × String)
  quickSelect : String
  name : String
  size : Nat × Nat
  controller : Option String
  axesBindings : List (Nat × String)
  deriving Repr, DecidableEq

/-- A read from a `defaultdict(str)`: a missing key is inserted with value `""` (this
is the side effect of `self.bindings[key]`), and the stored (or fresh) value returned. -/
def ddGet {α : Type} [DecidableEq α] (l : List (α × String)) (k : α) :
    String × List (α × String) :=
  match alookup l k with
  | some v => (v, l)
  | none => ("", l ++ [(k, "")])

/-- The pure value a `defaultdict(str)` read yields. -/
def dval {α : Type} [DecidableEq α] (l : List (α × String)) (k : α) : String :=
  (alookup l k).getD ""

theorem ddGet_fst {α : Type} [DecidableEq α] (l : List (α × String)) (k : α) :
    (ddGet l k).1 = dval l k := by
  unfold ddGet dval
  cases alookup l k <;> simp

/-- The stored binding value at a key (empty string when unmapped). -/
def bval (p : Profile) (k : BKey) : String := dval p.bindings k

/-- `Profile.get`, with its state effect on the `defaultdict`.  The source line
`self.bindings[(state, button)] or state in ("question", "answer") and
self.bindings[("review", button)] or self.bindings[("all", button)]` is unfolded by
Python's short-circuit truthiness: a non-empty exact binding is returned as is;
otherwise, only for `question`/`answer`, the `review` entry is read and returned when
non-empty; otherwise the `all` entry is read and returned (even when empty). -/
def getSt (p : Profile) (state : String) (button : Nat) : String × Profile :=
  let r₁ := ddGet p.bindings (state, button)
  if r₁.1 ≠ "" then (r₁.1, { p with bindings := r₁.2 })
  else if state = "question" ∨ state = "answer" then
    let r₂ := ddGet r₁.2 ("review", button)
    if r₂.1 ≠ "" then (r₂.1, { p with bindings := r₂.2 })
    else
      let r₃ := ddGet r₂.2 ("all", button)
      (r₃.1, { p with bindings := r₃.2 })
  else
    let r₃ := ddGet r₁.2 ("all", button)
    (r₃.1, { p with bindings := r₃.2 })

/-- The action `Profile.get` returns. -/
def Profile.get (p : Profile) (state : String) (button : Nat) : String :=
  (getSt p state button).1

/-- `Profile.update_binding`: rejects a state outside the enumerated set with a
`ValueError` before any mutation, otherwise inserts or overwrites the binding. -/
def update_binding (p : Profile) (state : String) (button : Nat) (action : String) :
    Except String Profile :=
  if state ∉ StateSet then Except.error ("State " ++ state ++ " not valid.")
  else Except.ok { p with bindings := aset p.bindings (state, button) action }

/-- `Profile.set` just delegates to `update_binding`. -/
def Profile.set (p : Profile) (state : String) (button : Nat) (action : String) :
    Except String Profile :=
  update_binding p state button action

theorem ddGet_snd_dval {α : Type} [DecidableEq α] (l : List (α × String)) (k k' : α) :
    dval (ddGet l k).2 k' = dval l k' := by
  unfold ddGet
  cases h : alookup l k with
  | some v => simp
  | none =>
      simp only [dval, alookup_append]
      cases h' : alookup l k' with
      | some v => simp
      | none =>
          by_cases hk : k = k'
          · subst hk; simp [alookup, h]
          · simp [alookup, hk, h']

/-- The value `Profile.get` returns is the pure layered lookup. -/
theorem get_eq_layered (p : Profile) (s : String) (b : Nat) :
    Profile.get p s b =
      (if bval p (s, b) ≠ "" then bval p (s, b)
       else if (s = "question" ∨ s = "answer") ∧ bval p ("review", b) ≠ "" then
         bval p ("review", b)
       else bval p ("all", b)) := by
  unfold Profile.get getSt
  simp only [ddGet_fst, ddGet_snd_dval, bval]
  by_cases h₁ : dval p.bindings (s, b) = "" <;>
    by_cases h₂ : s = "question" ∨ s = "answer" <;>
      by_cases h₃ : dval p.bindings ("review", b) = "" <;>
        simp [h₁, h₂, h₃]

theorem bval_aset_ne (p : Profile) (k k' : BKey) (v : String) (h : k ≠ k') :
    bval { p with bindings := aset p.bindings k v } k' = bval p k' := by
  simp only [bval, dval]
  rw [alookup_aset_ne _ _ _ _ h]

theorem bval_mk_aset_self (p : Profile) (k : BKey) (v : String) :
    bval { p with bindings := aset p.bindings k v } k = v := by
  simp only [bval, dval]
  rw [alookup_aset_self]
  rfl

/-- C1: `Profile.get` resolves in layered order — the exact (state, index) binding when
non-empty; otherwise, exactly for states `question` and `answer`, the stored `review`
binding when non-empty; otherwise the `all` binding when non-empty; otherwise the empty
string.  Consequently an index whose only binding is at the `all` layer shows that
action under every concrete state, and overriding `question` changes neither
`get(answer, ·)` nor the stored `review` entry. -/
theorem c1_get_layered_resolution (p : Profile) (s : String) (b : Nat)
    (hs : s ∈ StateSet) :
    (Profile.get p s b =
      (if bval p (s, b) ≠ "" then bval p (s, b)
       else if (s = "question" ∨ s = "answer") ∧ bval p ("review", b) ≠ "" then
         bval p ("review", b)
       else if bval p ("all", b) ≠ "" then bval p ("all", b)
       else "")) ∧
    ((∀ s' ∈ StateSet, s' ≠ "all" → bval p (s', b) = "") →
      ∀ s' ∈ concreteStates, Profile.get p s' b = bval p ("all", b)) ∧
    (∀ (a : String) (p' : Profile), Profile.set p "question" b a = Except.ok p' →
      Profile.get p' "answer" b = Profile.get p "answer" b ∧
      bval p' ("review", b) = bval p ("review", b)) := by
  refine ⟨?_, ?_, ?_⟩
  · rw [get_eq_layered]
    by_cases h : bval p ("all", b) = "" <;> simp [h]
  · intro h s' hs'
    have hrev : bval p ("review", b) = "" := h "review" (by decide) (by decide)
    have hd := h "deckBrowser" (by decide) (by decide)
    have ho := h "overview" (by decide) (by decide)
    have hq := h "question" (by decide) (by decide)
    have ha := h "answer" (by decide) (by decide)
    have hdg := h "dialog" (by decide) (by decide)
    have hc := h "config" (by decide) (by decide)
    have hn := h "NoFocus" (by decide) (by decide)
    fin_cases hs' <;>
      rw [get_eq_layered] <;>
        simp [hd, ho, hq, ha, hdg, hc, hn, hrev]
  · intro a p' hset
    have hq : ("question" : String) ∈ StateSet := by decide
    simp only [Profile.set, update_binding] at hset
    rw [if_neg (not_not_intro hq)] at hset
    simp only [Except.ok.injEq] at hset
    subst hset
    have hne : ∀ st : String, st ≠ "question" →
        ((("question" : String), b) : BKey) ≠ ((st, b) : BKey) := by
      intro st hst heq
      exact hst (by cases heq; rfl)
    constructor
    · rw [get_eq_layered, get_eq_layered]
      rw [bval_aset_ne _ _ _ _ (hne "answer" (by decide)),
        bval_aset_ne _ _ _ _ (hne "review" (by decide)),
        bval_aset_ne _ _ _ _ (hne "all" (by decide))]
    · exact bval_aset_ne _ _ _ _ (hne "review" (by decide))

/-- A small concrete profile used by the witnesses. -/
def pEx : Profile :=
  { bindings := [(("NoFocus", 0), "Focus Main Window"), (("all", 1), "Undo")]
    quickSelect := ""
    name := "Example"
    size := (2, 0)
    controller := some "DualShock 4"
    axesBindings := [] }

/-- Witness for C1 at the concrete profile `pEx`, state `question`, index 1. -/
theorem c1_witness :
    (("question" : String) ∈ StateSet) ∧
    ((Profile.get pEx "question" 1 =
      (if bval pEx ("question", 1) ≠ "" then bval pEx ("question", 1)
       else if (("question" : String) = "question" ∨ ("question" : String) = "answer") ∧
           bval pEx ("review", 1) ≠ "" then
         bval pEx ("review", 1)
       else if bval pEx ("all", 1) ≠ "" then bval pEx ("all", 1)
       else "")) ∧
    ((∀ s' ∈ StateSet, s' ≠ "all" → bval pEx (s', 1) = "") →
      ∀ s' ∈ concreteStates, Profile.get pEx s' 1 = bval pEx ("all", 1)) ∧
    (∀ (a : String) (p' : Profile), Profile.set pEx "question" 1 a = Except.ok p' →
      Profile.get p' "answer" 1 = Profile.get pEx "answer" 1 ∧
      bval p' ("review", 1) = bval pEx ("review", 1))) :=
  ⟨by decide, c1_get_layered_resolution pEx "question" 1 (by decide)⟩

/-- C4: `Profile.set` (via `update_binding`) raises `ValueError` for a state outside the
enumerated set — the check precedes the assignment, so no binding is written and the
profile is unchanged — and for a state in the set it inserts or overwrites exactly the
(state, index) entry, leaving every other binding and every other field intact. -/
theorem c4_set_validation (p : Profile) (s : String) (b : Nat) (a : String) :
    (s ∉ StateSet →
      Profile.set p s b a = Except.error ("State " ++ s ++ " not valid.")) ∧
    (s ∈ StateSet →
      ∃ p', Profile.set p s b a = Except.ok p' ∧
        bval p' (s, b) = a ∧
        (∀ k : BKey, k ≠ (s, b) → bval p' k = bval p k) ∧
        p'.name = p.name ∧ p'.size = p.size ∧ p'.controller = p.controller ∧
        p'.quickSelect = p.quickSelect ∧ p'.axesBindings = p.axesBindings) := by
  constructor
  · intro h
    simp [Profile.set, update_binding, h]
  · intro h
    refine ⟨{ p with bindings := aset p.bindings (s, b) a },
      by simp [Profile.set, update_binding, h], ?_, ?_, rfl, rfl, rfl, rfl, rfl⟩
    · exact bval_mk_aset_self p (s, b) a
    · intro k hk
      exact bval_aset_ne p (s, b) k a (Ne.symm hk)

/-- Witness for C4: a rejected write with the unknown state `bogus`, and an accepted
write at the `all` layer, both on the concrete profile `pEx`. -/
theorem c4_witness :
    ((("bogus" : String) ∉ StateSet) ∧
      Profile.set pEx "bogus" 0 "Sync" =
        Except.error ("State " ++ "bogus" ++ " not valid.")) ∧
    ((("all" : String) ∈ StateSet) ∧
      ∃ p', Profile.set pEx "all" 0 "Sync" = Except.ok p' ∧
        bval p' ("all", 0) = "Sync" ∧
        (∀ k : BKey, k ≠ ("all", 0) → bval p' k = bval pEx k) ∧
        p'.name = pEx.name ∧ p'.size = pEx.size ∧ p'.controller = pEx.controller ∧
        p'.quickSelect = pEx.quickSelect ∧ p'.axesBindings = pEx.axesBindings) :=
  ⟨⟨by decide, (c4_set_validation pEx "bogus" 0 "Sync").1 (by decide)⟩,
   ⟨by decide, (c4_set_validation pEx "all" 0 "Sync").2 (by decide)⟩⟩

/-! ### Decimal strings: Python `str(int)` and the `int_keys` coercion

`to_dict` stringifies button indices with `str(button)`, embedded as `Nat.repr`.
`int_keys` (from `utils`, not in the sources) is modelled from the spec: "integer-like
string keys in nested mappings must be coerced back to integers on load". -/

/-- The numeric value of a decimal digit character, `none` for a non-digit. -/
def charVal? (c : Char) : Option Nat :=
  if 48 ≤ c.toNat ∧ c.toNat ≤ 57 then some (c.toNat - 48) else none

/-- Accumulating decimal parse of a character list. -/
def parseAux : Nat → List Char → Option Nat
  | m, [] => some m
  | m, c :: rest =>
      match charVal? c with
      | some d => parseAux (m * 10 + d) rest
      | none => none

/-- Modelled from the spec: the integer-like-string test and coercion of `int_keys`
(spec section 6); a non-empty all-digit string parses to the integer it denotes. -/
def strToNat? (s : String) : Option Nat :=
  match s.data with
  | [] => none
  | l => parseAux 0 l

/-- The decimal digit list of `n`, written with the same recursion `Nat.toDigitsCore`
performs (least significant digit peeled off by `% 10` and `/ 10`). -/
def decDigits (n : Nat) : List Char :=
  if h : n < 10 then [Nat.digitChar n]
  else decDigits (n / 10) ++ [Nat.digitChar (n % 10)]
termination_by n
decreasing_by exact Nat.div_lt_self (by omega) (by omega)

theorem decDigits_ne_nil (n : Nat) : decDigits n ≠ [] := by
  unfold decDigits
  by_cases h : n < 10 <;> simp [h]

theorem toDigitsCore_eq_decDigits :
    ∀ (f n : Nat) (l : List Char), n < f →
      Nat.toDigitsCore 10 f n l = decDigits n ++ l := by
  intro f
  induction f with
  | zero => intro n l h; omega
  | succ f ih =>
      intro n l h
      by_cases h10 : n < 10
      · have hz : n / 10 = 0 := Nat.div_eq_of_lt h10
        rw [Nat.toDigitsCore]
        simp only [hz, if_pos rfl]
        rw [decDigits]
        simp [h10, Nat.mod_eq_of_lt h10]
      · have hz : ¬ n / 10 = 0 := by
          intro hz
          exact h10 (by omega)
        have hlt : n / 10 < f := by
          have := Nat.div_lt_self (n := n) (by omega) (by omega : 1 < 10)
          omega
        rw [Nat.toDigitsCore]
        simp only [hz, if_neg]
        rw [ih (n / 10) _ hlt]
        conv_rhs => rw [decDigits]
        simp [h10]

theorem repr_eq_decDigits (n : Nat) : (Nat.repr n).data = decDigits n := by
  show (Nat.toDigits 10 n).asString.data = decDigits n
  rw [Nat.toDigits, toDigitsCore_eq_decDigits (n + 1) n [] (by omega)]
  simp [List.asString]

theorem charVal_digitChar (d : Nat) (hd : d < 10) :
    charVal? (Nat.digitChar d) = some d := by
  interval_cases d <;> decide

theorem parseAux_append (m : Nat) (l₁ l₂ : List Char) :
    parseAux m (l₁ ++ l₂) =
      (parseAux m l₁).bind (fun k => parseAux k l₂) := by
  induction l₁ generalizing m with
  | nil => simp [parseAux]
  | cons c rest ih =>
      simp only [List.cons_append, parseAux]
      cases charVal? c with
      | some d => exact ih (m * 10 + d)
      | none => simp

theorem parseAux_decDigits (n : Nat) :
    ∀ m : Nat, parseAux m (decDigits n) = some (m * 10 ^ (decDigits n).length + n) := by
  induction n using Nat.strong_induction_on with
  | _ n ih =>
      intro m
      by_cases h : n < 10
      · rw [decDigits]
        simp only [h, dif_pos]
        simp only [parseAux, charVal_digitChar n h]
        simp [pow_succ]
      · rw [decDigits]
        simp only [h, dif_neg, not_false_iff]
        rw [parseAux_append]
        have hlt : n / 10 < n := Nat.div_lt_self (by omega) (by omega)
        rw [ih (n / 10) hlt m]
        have h10 : n % 10 < 10 := Nat.mod_lt _ (by omega)
        simp only [Option.bind_some, Option.some_bind]
        simp only [parseAux, charVal_digitChar _ h10]
        have hmod : n / 10 * 10 + n % 10 = n := by omega
        simp only [List.length_append, List.length_cons, List.length_nil]
        congr 1
        ring_nf
        omega

/-- `int_keys` undoes `str`: parsing the decimal representation gives the number back. -/
theorem strToNat_repr (n : Nat) : strToNat? (Nat.repr n) = some n := by
  unfold strToNat?
  rw [repr_eq_decDigits]
  have hne := decDigits_ne_nil n
  cases hd : decDigits n with
  | nil => exact absurd hd hne
  | cons c rest =>
      have := parseAux_decDigits n 0
      rw [hd] at this
      simpa using this

theorem repr_injective {a b : Nat} (h : Nat.repr a = Nat.repr b) : a = b := by
  have ha := strToNat_repr a
  have hb := strToNat_repr b
  rw [h] at ha
  rw [ha] at hb
  exact Option.some.inj hb

/-! ### Serialization: `Profile.to_dict` and `Profile.__init__` -/

/-- Modelled from the spec: the controller catalog (`controllers.json` is a data file
outside the sources).  Only what `profile.py` reads is kept: the catalog keys (the
`CONTROLLERS` list) and each entry's canonical `name` field. -/
abbrev Catalog := List (String × String)

/-- `CONTROLLERS`: the catalog keys. -/
def catKeys (cat : Catalog) : List String := cat.map Prod.fst

/-- `Controller(key).name` — the `name` field of the catalog entry for `key`. -/
def ctrlName (cat : Catalog) (key : String) : String := (alookup cat key).getD ""

/-- The `Profile.controller` property setter applied to a string: a catalog key is
resolved to its `Controller`; any other string is logged and dropped by the early
`return`, leaving the backing `_controller` attribute untouched. -/
def setController (cat : Catalog) (p : Profile) (c : String) : Profile :=
  if c ∈ catKeys cat then { p with controller := some c } else p

/-- The serialized (`to_dict`) form of a profile: nested `bindings` mapping
state → (stringified button index → action), plus the scalar fields; `controller`
holds the controller's canonical name. -/
structure ProfileDict where
  name : String
  size : Nat × Nat
  controller : String
  quickSelect : String
  bindings : List (String × List (String × String))
  axesBindings : List (Nat × String)
  deriving Repr, DecidableEq

/-- One iteration of `to_dict`'s grouping loop:
`if state not in bindings: bindings[state] = {}` then
`bindings[state][str(button)] = action`. -/
def groupStep (acc : List (String × List (String × String))) (e : BKey × String) :
    List (String × List (String × String)) :=
  match alookup acc e.1.1 with
  | some inner => aset acc e.1.1 (aset inner (Nat.repr e.1.2) e.2)
  | none => acc ++ [(e.1.1, [(Nat.repr e.1.2, e.2)])]

/-- `to_dict`'s nested bindings dict, built over the flat bindings in order. -/
def groupBindings (bs : List (BKey × String)) : List (String × List (String × String)) :=
  bs.foldl groupStep []

/-- `Profile.to_dict`.  Reading `self.controller.name` raises `AttributeError` when the
`_controller` attribute was never assigned; that failure is the `none` case. -/
def toDict (cat : Catalog) (p : Profile) : Option ProfileDict :=
  match p.controller with
  | none => none
  | some c =>
      some { name := p.name
             size := p.size
             controller := ctrlName cat c
             quickSelect := p.quickSelect
             bindings := groupBindings p.bindings
             axesBindings := p.axesBindings }

/-- The inner loop of `__init__`'s flattening pass: each (button-key, action) pair of
one state's serialized dict, with the button key coerced by `int_keys`, is inserted
into the flat `defaultdict` when the action is non-empty (`if action:`).  A button key
that is not integer-like cannot arise from `to_dict` and is outside the modelled
domain; it makes the whole construction fail. -/
def flattenInner (state : String) (acc : Option (List (BKey × String))) :
    List (String × String) → Option (List (BKey × String))
  | [] => acc
  | (bs, action) :: rest =>
      match acc with
      | none => none
      | some l =>
          match strToNat? bs with
          | none => none
          | some b =>
              flattenInner state
                (some (if action ≠ "" then aset l (state, b) action else l)) rest

/-- The outer loop of `__init__`'s flattening pass over the serialized states. -/
def flattenBindings : List (String × List (String × String)) →
    Option (List (BKey × String)) → Option (List (BKey × String))
  | [], acc => acc
  | (state, inner) :: rest, acc =>
      flattenBindings rest (flattenInner state acc inner)

/-- `Profile.__init__` from a serialized dict (the nested-bindings branch; a dict with
empty `bindings` raises `IndexError` at `list(bindings.values())[0]`).  After the
flattening pass the synthetic `(NoFocus, 0) → "Focus Main Window"` binding is written
unconditionally, and the `controller` string goes through the property setter: it
resolves when it is a catalog key and is dropped otherwise. -/
def fromDict (cat : Catalog) (d : ProfileDict) : Option Profile :=
  if d.bindings.isEmpty then none
  else
    match flattenBindings d.bindings (some []) with
    | none => none
    | some bs =>
        some { bindings := aset bs ("NoFocus", 0) "Focus Main Window"
               quickSelect := d.quickSelect
               name := d.name
               size := d.size
               controller := if d.controller ∈ catKeys cat then some d.controller else none
               axesBindings := d.axesBindings }

/-- The dict-level checks of `profile_is_valid`: every state key is in the enumerated
set, the controller resolves in the catalog, and the `Profile` constructor succeeds
(the required top-level keys and the dict-shaped binding values are guaranteed by the
typed representation). -/
def profileDictIsValid (cat : Catalog) (d : ProfileDict) : Bool :=
  d.bindings.all (fun e => decide (e.1 ∈ StateSet)) &&
    decide (d.controller ∈ catKeys cat) && (fromDict cat d).isSome

/-- `profile_is_valid` on an in-memory `Profile`: serialize, then run the dict checks. -/
def profileIsValid (cat : Catalog) (p : Profile) : Bool :=
  match toDict cat p with
  | none => false
  | some d => profileDictIsValid cat d

/-- A small concrete catalog for closed statements.  Modelled from the spec
(`controllers.json` is not in the sources): entries keyed by their canonical name. -/
def catEx : Catalog := [("DualShock 4", "DualShock 4"), ("DualSense", "DualSense")]

/-- C9 (amended): assigning a string to `Profile.controller` resolves it when it is a
catalog key; a string outside the catalog is silently dropped — the field keeps its
previous value, and a profile constructed from a dict whose `controller` is not in the
catalog ends up with the attribute never assigned, so `to_dict` fails
(`AttributeError`) instead of succeeding with a placeholder. -/
theorem c9_controller_assignment (cat : Catalog) (p : Profile) (c : String)
    (d : ProfileDict) (p' : Profile) :
    (c ∈ catKeys cat → setController cat p c = { p with controller := some c }) ∧
    (c ∉ catKeys cat → setController cat p c = p) ∧
    (fromDict cat d = some p' →
      (d.controller ∈ catKeys cat → p'.controller = some d.controller) ∧
      (d.controller ∉ catKeys cat → p'.controller = none ∧ toDict cat p' = none)) := by
  refine ⟨?_, ?_, ?_⟩
  · intro h; simp [setController, h]
  · intro h; simp [setController, h]
  · intro hfd
    unfold fromDict at hfd
    by_cases he : d.bindings.isEmpty
    · simp [he] at hfd
    · simp only [he, if_neg, Bool.not_eq_true] at hfd
      cases hf : flattenBindings d.bindings (some []) with
      | none => rw [hf] at hfd; simp at hfd
      | some bs =>
          rw [hf] at hfd
          simp only [Option.some.injEq] at hfd
          subst hfd
          constructor
          · intro hc; simp [hc]
          · intro hc
            refine ⟨by simp [hc], ?_⟩
            simp [toDict, hc]

/-- A serialized profile whose `controller` is not a catalog name. -/
def d9 : ProfileDict :=
  { name := "Mystery Profile"
    size := (2, 0)
    controller := "Mystery Gamepad"
    quickSelect := ""
    bindings := [("all", [("0", "Undo")])]
    axesBindings := [] }

/-- The profile `__init__` builds from `d9`. -/
def p9 : Profile :=
  { bindings := [(("all", 0), "Undo"), (("NoFocus", 0), "Focus Main Window")]
    quickSelect := ""
    name := "Mystery Profile"
    size := (2, 0)
    controller := none
    axesBindings := [] }

/-- C9 counterexample: constructing a profile whose `controller` string is not in the
catalog leaves the `_controller` attribute unset (it does not hold the placeholder
string), and `to_dict` then fails instead of succeeding. -/
theorem c9_counterexample :
    fromDict catEx d9 = some p9 ∧ p9.controller = none ∧ toDict catEx p9 = none := by
  decide

/-- Witness for C9 with the hypotheses discharged at the concrete catalog `catEx`,
profile `pEx`, the non-catalog string and the dict `d9`. -/
theorem c9_witness :
    (("DualSense" : String) ∈ catKeys catEx ∧
      setController catEx pEx "DualSense" = { pEx with controller := some "DualSense" }) ∧
    (("Mystery Gamepad" : String) ∉ catKeys catEx ∧
      setController catEx pEx "Mystery Gamepad" = pEx) :=
  ⟨⟨by decide, (c9_controller_assignment catEx pEx "DualSense" d9 p9).1 (by decide)⟩,
   ⟨by decide, (c9_controller_assignment catEx pEx "Mystery Gamepad" d9 p9).2.1 (by decide)⟩⟩

/-- The profile `pEx` extended by the two empty entries a `get` miss inserts. -/
def p10 : Profile :=
  { bindings := [(("NoFocus", 0), "Focus Main Window")]
    quickSelect := ""
    name := "T"
    size := (8, 0)
    controller := some "DualShock 4"
    axesBindings := [] }

/-- C10: `Profile.get` is not observation-pure.  On `p10` no binding is stored at
(`deckBrowser`, 5), (`review`, 5) or (`all`, 5); the call returns the empty string but
the `defaultdict` lookups insert empty-string entries, so the serialized form gains
`deckBrowser`/`all` keys mapping index "5" to `""` even though no `set` or
`update_binding` ran. -/
theorem c10_get_has_frame_effect :
    bval p10 ("deckBrowser", 5) = "" ∧ bval p10 ("review", 5) = "" ∧
    bval p10 ("all", 5) = "" ∧
    Profile.get p10 "deckBrowser" 5 = "" ∧
    toDict catEx (getSt p10 "deckBrowser" 5).2 ≠ toDict catEx p10 ∧
    alookup (groupBindings (getSt p10 "deckBrowser" 5).2.bindings) "deckBrowser" =
      some [("5", "")] ∧
    alookup (groupBindings p10.bindings) "deckBrowser" = none := by
  decide

/-! ### `Profile.get_inherited_bindings` -/

/-- The value `get_inherited_bindings` materializes for one (state, button).  The
source expression mirrors `get` but reads `self.bindings[("all", button)]` in the
position where `get` reads `("review", button)`:
`self.bindings[(state, button)] or state in ("question", "answer") and
self.bindings[("all", button)] or self.bindings[("all", button)]`. -/
def inhVal (p : Profile) (state : String) (button : Nat) : String :=
  if bval p (state, button) ≠ "" then bval p (state, button)
  else if (state = "question" ∨ state = "answer") ∧ bval p ("all", button) ≠ "" then
    bval p ("all", button)
  else bval p ("all", button)

/-- The state list `get_inherited_bindings` iterates over. -/
def inheritedStates : List String :=
  ["deckBrowser", "overview", "question", "answer", "dialog", "config"]

/-- `Profile.get_inherited_bindings`: the materialized table for every enumerated
state and every button index below `len_buttons`.  (The `defaultdict` reads extend
`bindings` with empty entries as they go; those insertions never change a value read
afterwards, so the table is built from the pure lookup.) -/
def get_inherited_bindings (p : Profile) : List (String × List (Nat × String)) :=
  inheritedStates.map fun s => (s, (List.range p.size.1).map fun b => (b, inhVal p s b))

/-- A profile with an explicit `review`-layer binding that differs from its `all`
layer: the failing input for C3. -/
def p3 : Profile :=
  { bindings := [(("NoFocus", 0), "Focus Main Window"), (("review", 0), "Again"),
                 (("all", 0), "Undo")]
    quickSelect := ""
    name := "T3"
    size := (1, 0)
    controller := some "DualShock 4"
    axesBindings := [] }

/-- C3: at the failing input `p3`, `get("question", 0)` resolves through the stored
`review` binding to "Again", but `get_inherited_bindings()["question"][0]` is "Undo" —
the materialization falls back to the `all` layer where `get` falls back to `review`,
so it does not equal the layered resolution the claim (and `get`) specify. -/
theorem c3_inherited_diverges_from_get :
    Profile.get p3 "question" 0 = "Again" ∧
    alookup (get_inherited_bindings p3) "question" = some [(0, "Undo")] ∧
    inhVal p3 "question" 0 ≠ Profile.get p3 "question" 0 := by
  decide

/-! ### Round-trip infrastructure for C2 -/

theorem akeys_nil {α β : Type} : akeys ([] : List (α × β)) = [] := rfl

theorem akeys_cons {α β : Type} (e : α × β) (l : List (α × β)) :
    akeys (e :: l) = e.1 :: akeys l := rfl

theorem akeys_append {α β : Type} (l₁ l₂ : List (α × β)) :
    akeys (l₁ ++ l₂) = akeys l₁ ++ akeys l₂ := by
  simp [akeys]

theorem alookup_eq_none_iff {α β : Type} [DecidableEq α] (l : List (α × β)) (k : α) :
    alookup l k = none ↔ k ∉ akeys l := by
  induction l with
  | nil => simp [alookup, akeys]
  | cons hd tl ih =>
      obtain ⟨k₀, v₀⟩ := hd
      rw [akeys_cons, List.mem_cons]
      by_cases h₀ : k₀ = k
      · subst h₀; simp [alookup]
      · rw [show alookup ((k₀, v₀) :: tl) k = alookup tl k from by simp [alookup, h₀], ih]
        constructor
        · intro h hmem
          rcases hmem with he | hm
          · exact h₀ he.symm
          · exact h hm
        · intro h hm
          exact h (Or.inr hm)

theorem alookup_some_mem {α β : Type} [DecidableEq α] {l : List (α × β)} {k : α} {v : β}
    (h : alookup l k = some v) : (k, v) ∈ l := by
  induction l with
  | nil => simp [alookup] at h
  | cons hd tl ih =>
      obtain ⟨k₀, v₀⟩ := hd
      by_cases h₀ : k₀ = k
      · subst h₀
        simp [alookup] at h
        simp [h]
      · simp [alookup, h₀] at h
        simp [ih h]

theorem mem_akeys_iff {α β : Type} {l : List (α × β)} {k : α} :
    k ∈ akeys l ↔ ∃ v, (k, v) ∈ l := by
  unfold akeys
  constructor
  · intro h
    obtain ⟨⟨k', v⟩, hm, he⟩ := List.mem_map.mp h
    exact ⟨v, by simpa [← he] using hm⟩
  · rintro ⟨v, hv⟩
    exact List.mem_map.mpr ⟨(k, v), hv, rfl⟩

theorem aset_ne_nil {α β : Type} [DecidableEq α] (l : List (α × β)) (k : α) (v : β) :
    aset l k v ≠ [] := by
  cases l with
  | nil => simp [aset]
  | cons hd tl =>
      obtain ⟨k₀, v₀⟩ := hd
      by_cases h₀ : k₀ = k <;> simp [aset, h₀]

theorem mem_aset {α β : Type} [DecidableEq α] {l : List (α × β)} {k : α} {v : β} {e : α × β}
    (h : e ∈ aset l k v) : e ∈ l ∨ e = (k, v) := by
  induction l with
  | nil => simp [aset] at h; simp [h]
  | cons hd tl ih =>
      obtain ⟨k₀, v₀⟩ := hd
      by_cases h₀ : k₀ = k
      · subst h₀
        simp [aset] at h
        rcases h with h | h
        · right; simp [h]
        · left; simp [h]
      · simp [aset, h₀] at h
        rcases h with h | h
        · left; simp [h]
        · rcases ih h with h' | h'
          · left; simp [h']
          · right; exact h'

theorem akeys_aset {α β : Type} [DecidableEq α] (l : List (α × β)) (k : α) (v : β) :
    akeys (aset l k v) = if k ∈ akeys l then akeys l else akeys l ++ [k] := by
  induction l with
  | nil => simp [aset, akeys]
  | cons hd tl ih =>
      obtain ⟨k₀, v₀⟩ := hd
      by_cases h₀ : k₀ = k
      · subst h₀
        simp [aset, akeys_cons]
      · have hne : k ≠ k₀ := fun he => h₀ he.symm
        rw [show aset ((k₀, v₀) :: tl) k v = (k₀, v₀) :: aset tl k v from by simp [aset, h₀]]
        rw [akeys_cons, akeys_cons, ih]
        by_cases hmem : k ∈ akeys tl
        · simp [hmem, hne]
        · simp [hmem, hne]

theorem aset_append_fresh {α β : Type} [DecidableEq α] (l : List (α × β)) (k : α) (v : β)
    (h : k ∉ akeys l) : aset l k v = l ++ [(k, v)] := by
  induction l with
  | nil => simp [aset]
  | cons hd tl ih =>
      obtain ⟨k₀, v₀⟩ := hd
      rw [akeys_cons, List.mem_cons] at h
      push_neg at h
      have h₀ : ¬ k₀ = k := fun he => h.1 (by simp [he])
      rw [show aset ((k₀, v₀) :: tl) k v = (k₀, v₀) :: aset tl k v from by simp [aset, h₀]]
      rw [ih h.2]
      simp

theorem aset_aset {α β : Type} [DecidableEq α] (l : List (α × β)) (k : α) (v w : β) :
    aset (aset l k v) k w = aset l k w := by
  induction l with
  | nil => simp [aset]
  | cons hd tl ih =>
      obtain ⟨k₀, v₀⟩ := hd
      by_cases h₀ : k₀ = k
      · subst h₀; simp [aset]
      · simp [aset, h₀, ih]

theorem alookup_split {α β : Type} [DecidableEq α] {l : List (α × β)} {k : α} {v : β}
    (h : alookup l k = some v) :
    ∃ pre post, l = pre ++ (k, v) :: post ∧ k ∉ akeys pre ∧
      ∀ w, aset l k w = pre ++ (k, w) :: post := by
  induction l with
  | nil => simp [alookup] at h
  | cons hd tl ih =>
      obtain ⟨k₀, v₀⟩ := hd
      by_cases h₀ : k₀ = k
      · subst h₀
        simp [alookup] at h
        subst h
        exact ⟨[], tl, by simp, by simp [akeys], fun w => by simp [aset]⟩
      · rw [show alookup ((k₀, v₀) :: tl) k = alookup tl k from by simp [alookup, h₀]] at h
        obtain ⟨pre, post, heq, hnk, hset⟩ := ih h
        refine ⟨(k₀, v₀) :: pre, post, by simp [heq], ?_, fun w => by simp [aset, h₀, hset w]⟩
        rw [akeys_cons, List.mem_cons]
        push_neg
        exact ⟨fun he => h₀ he.symm, hnk⟩

/-- Lookup is invariant under permutation when keys are unique. -/
theorem alookup_perm {α β : Type} [DecidableEq α] {l₁ l₂ : List (α × β)}
    (h : l₁.Perm l₂) (hnd : (akeys l₁).Nodup) (k : α) : alookup l₁ k = alookup l₂ k := by
  induction h with
  | nil => rfl
  | cons x h ih =>
      obtain ⟨kx, vx⟩ := x
      by_cases hk : kx = k
      · simp [alookup, hk]
      · simp only [akeys, List.map_cons, List.nodup_cons] at hnd
        simp [alookup, hk, ih (by simpa [akeys] using hnd.2)]
  | swap x y l =>
      obtain ⟨kx, vx⟩ := x
      obtain ⟨ky, vy⟩ := y
      simp only [akeys, List.map_cons, List.nodup_cons, List.mem_cons] at hnd
      by_cases hx : kx = k <;> by_cases hy : ky = k
      · exact absurd (hx.trans hy.symm) (fun he => hnd.1 (Or.inl he.symm))
      · simp [alookup, hx, hy]
      · simp [alookup, hx, hy]
      · simp [alookup, hx, hy]
  | trans h₁ h₂ ih₁ ih₂ =>
      have hnd₂ : (akeys _).Nodup := ((h₁.map Prod.fst).nodup_iff).mp hnd
      exact (ih₁ hnd).trans (ih₂ hnd₂)

/-- The entries one serialized state contributes on flattening: integer-like button
keys parsed, the rest dropped (they cannot arise from `to_dict`). -/
def innerFlat (s : String) (inner : List (String × String)) : List (BKey × String) :=
  inner.filterMap fun ka => (strToNat? ka.1).map fun b => ((s, b), ka.2)

/-- The flat binding list a serialized nested dict denotes, state-major. -/
def ungroup : List (String × List (String × String)) → List (BKey × String)
  | [] => []
  | e :: rest => innerFlat e.1 e.2 ++ ungroup rest

theorem innerFlat_cons_repr (s : String) (b : Nat) (a : String)
    (rest : List (String × String)) :
    innerFlat s ((Nat.repr b, a) :: rest) = ((s, b), a) :: innerFlat s rest := by
  simp [innerFlat, List.filterMap_cons, strToNat_repr]

theorem innerFlat_append (s : String) (l₁ l₂ : List (String × String)) :
    innerFlat s (l₁ ++ l₂) = innerFlat s l₁ ++ innerFlat s l₂ := by
  simp [innerFlat]

theorem ungroup_append (N₁ N₂ : List (String × List (String × String))) :
    ungroup (N₁ ++ N₂) = ungroup N₁ ++ ungroup N₂ := by
  induction N₁ with
  | nil => simp [ungroup]
  | cons e rest ih => simp [ungroup, ih]

theorem aset_append_last {α β : Type} [DecidableEq α] (l : List (α × β)) (k : α) (w v : β)
    (h : k ∉ akeys l) : aset (l ++ [(k, w)]) k v = l ++ [(k, v)] := by
  induction l with
  | nil => simp [aset]
  | cons hd tl ih =>
      obtain ⟨k₀, v₀⟩ := hd
      rw [akeys_cons, List.mem_cons] at h
      push_neg at h
      have h₀ : ¬ k₀ = k := fun he => h.1 (by simp [he])
      simp only [List.cons_append, aset, h₀, if_neg, not_false_iff]
      simp [ih h.2]

theorem ungroup_middle (pre post : List (String × List (String × String))) (s : String)
    (v : List (String × String)) :
    ungroup (pre ++ (s, v) :: post) = ungroup pre ++ (innerFlat s v ++ ungroup post) := by
  rw [ungroup_append]
  rfl

theorem foldl_groupStep_inner (s : String) :
    ∀ (inner : List (String × String)) (acc : List (String × List (String × String)))
      (cur : List (String × String)),
      alookup acc s = some cur →
      (∀ ka ∈ inner, ∃ b : Nat, ka.1 = Nat.repr b) →
      (∀ ka ∈ inner, ka.1 ∉ akeys cur) →
      (akeys inner).Nodup →
      List.foldl groupStep acc (innerFlat s inner) = aset acc s (cur ++ inner) := by
  intro inner
  induction inner with
  | nil =>
      intro acc cur hcur _ _ _
      simp [innerFlat, aset_eq_of_alookup acc s cur hcur]
  | cons ka rest ih =>
      intro acc cur hcur hk hfresh hnd
      obtain ⟨b, hb⟩ := hk ka (List.mem_cons_self _ _)
      obtain ⟨k₁, a₁⟩ := ka
      simp only at hb
      subst hb
      rw [innerFlat_cons_repr, List.foldl_cons]
      have hstep : groupStep acc ((s, b), a₁) = aset acc s (cur ++ [(Nat.repr b, a₁)]) := by
        simp only [groupStep, hcur]
        rw [aset_append_fresh cur (Nat.repr b) a₁ (hfresh (Nat.repr b, a₁) (by simp))]
      rw [hstep]
      rw [ih (aset acc s (cur ++ [(Nat.repr b, a₁)])) (cur ++ [(Nat.repr b, a₁)])
        (alookup_aset_self _ _ _) (fun ka h => hk ka (List.mem_cons_of_mem _ h))
        ?_ ?_]
      · rw [aset_aset]
        simp
      · intro ka hka
        rw [akeys_append]
        rw [List.mem_append]
        rintro (hm | hm)
        · exact hfresh ka (List.mem_cons_of_mem _ hka) hm
        · rw [akeys_cons] at hm
          simp only [akeys_nil, List.not_mem_nil, or_false, List.mem_cons] at hm
          rw [akeys_cons, List.nodup_cons] at hnd
          have hmem : ka.1 ∈ akeys rest := mem_akeys_iff.mpr ⟨ka.2, by simpa using hka⟩
          exact hnd.1 (hm ▸ hmem)
      · rw [akeys_cons, List.nodup_cons] at hnd
        exact hnd.2

theorem foldl_groupStep_ungroup :
    ∀ (N : List (String × List (String × String)))
      (acc : List (String × List (String × String))),
      (akeys N).Nodup →
      (∀ e ∈ N, e.1 ∉ akeys acc) →
      (∀ e ∈ N, e.2 ≠ [] ∧ (akeys e.2).Nodup ∧ ∀ ka ∈ e.2, ∃ b : Nat, ka.1 = Nat.repr b) →
      List.foldl groupStep acc (ungroup N) = acc ++ N := by
  intro N
  induction N with
  | nil => intro acc _ _ _; simp [ungroup]
  | cons e rest ih =>
      intro acc hnd hdisj hprops
      obtain ⟨s, inner⟩ := e
      obtain ⟨hne, hindnd, hkparse⟩ := hprops (s, inner) (by simp)
      cases inner with
      | nil => exact absurd rfl hne
      | cons ka₀ inner' =>
          obtain ⟨b₀, hb₀⟩ := hkparse ka₀ (by simp)
          obtain ⟨k₀, a₀⟩ := ka₀
          simp only at hb₀
          subst hb₀
          rw [show ungroup ((s, (Nat.repr b₀, a₀) :: inner') :: rest)
              = innerFlat s ((Nat.repr b₀, a₀) :: inner') ++ ungroup rest from rfl]
          rw [innerFlat_cons_repr, List.cons_append, List.foldl_cons, List.foldl_append]
          have hnone : alookup acc s = none :=
            (alookup_eq_none_iff acc s).mpr
              (hdisj (s, (Nat.repr b₀, a₀) :: inner') (by simp))
          have hstep : groupStep acc ((s, b₀), a₀) = acc ++ [(s, [(Nat.repr b₀, a₀)])] := by
            simp [groupStep, hnone]
          rw [hstep]
          have hlook : alookup (acc ++ [(s, [(Nat.repr b₀, a₀)])]) s
              = some [(Nat.repr b₀, a₀)] := by
            rw [alookup_append, hnone]
            simp [alookup]
          rw [foldl_groupStep_inner s inner' _ _ hlook
            (fun ka h => hkparse ka (List.mem_cons_of_mem _ h)) ?_ ?_]
          · rw [aset_append_last acc s _ _ ((alookup_eq_none_iff acc s).mp hnone)]
            rw [show ([(Nat.repr b₀, a₀)] ++ inner' : List (String × String))
                = (Nat.repr b₀, a₀) :: inner' from rfl]
            rw [ih (acc ++ [(s, (Nat.repr b₀, a₀) :: inner')]) ?_ ?_ ?_]
            · simp
            · rw [akeys_cons, List.nodup_cons] at hnd
              exact hnd.2
            · intro e' he'
              rw [akeys_append, akeys_cons, akeys_nil, List.mem_append]
              rintro (hm | hm)
              · exact hdisj e' (by simp [he']) hm
              · rw [akeys_cons, List.nodup_cons] at hnd
                simp only [List.not_mem_nil, or_false, List.mem_cons] at hm
                have : e'.1 ∈ akeys rest := mem_akeys_iff.mpr ⟨e'.2, by simpa using he'⟩
                exact hnd.1 (hm ▸ this)
            · intro e' he'
              exact hprops e' (by simp [he'])
          · intro ka hka
            intro hm
            rw [akeys_cons, akeys_nil, List.mem_cons] at hm
            simp only [List.not_mem_nil, or_false] at hm
            have hindnd' := hindnd
            rw [akeys_cons, List.nodup_cons] at hindnd'
            have hmm : ka.1 ∈ akeys inner' := mem_akeys_iff.mpr ⟨ka.2, by simpa using hka⟩
            exact hindnd'.1 (hm ▸ hmm)
          · have hindnd' := hindnd
            rw [akeys_cons, List.nodup_cons] at hindnd'
            exact hindnd'.2

/-- The canonical shape of the nested dicts `to_dict` produces: unique state keys,
non-empty inner dicts with unique decimal-numeral keys, non-empty actions. -/
def CanonN (N : List (String × List (String × String))) : Prop :=
  (akeys N).Nodup ∧ ∀ e ∈ N, e.2 ≠ [] ∧ (akeys e.2).Nodup ∧
    ∀ ka ∈ e.2, ka.2 ≠ "" ∧ ∃ b : Nat, ka.1 = Nat.repr b

theorem groupBindings_ungroup_of_canon (N : List (String × List (String × String)))
    (h : CanonN N) : groupBindings (ungroup N) = N := by
  unfold groupBindings
  rw [foldl_groupStep_ungroup N [] h.1 (by simp [akeys])
    (fun e he => ⟨(h.2 e he).1, (h.2 e he).2.1, fun ka hka => ((h.2 e he).2.2 ka hka).2⟩)]
  simp

theorem flattenInner_eq (s : String) :
    ∀ (inner : List (String × String)) (l : List (BKey × String)),
      (∀ ka ∈ inner, ka.2 ≠ "" ∧ ∃ b : Nat, ka.1 = Nat.repr b) →
      (akeys (l ++ innerFlat s inner)).Nodup →
      flattenInner s (some l) inner = some (l ++ innerFlat s inner) := by
  intro inner
  induction inner with
  | nil => intro l _ _; simp [flattenInner, innerFlat]
  | cons ka rest ih =>
      intro l hk hnd
      obtain ⟨hane, b, hb⟩ := hk ka (List.mem_cons_self _ _)
      obtain ⟨k₁, a₁⟩ := ka
      simp only at hane hb
      subst hb
      rw [innerFlat_cons_repr] at hnd ⊢
      rw [show flattenInner s (some l) ((Nat.repr b, a₁) :: rest)
          = flattenInner s (some (aset l (s, b) a₁)) rest from by
        simp [flattenInner, strToNat_repr, hane]]
      have hfresh : ((s, b) : BKey) ∉ akeys l := by
        rw [akeys_append, akeys_cons] at hnd
        have hd := List.disjoint_of_nodup_append hnd
        intro hm
        exact hd hm (by simp)
      rw [aset_append_fresh l (s, b) a₁ hfresh]
      rw [ih (l ++ [((s, b), a₁)]) (fun ka h => hk ka (List.mem_cons_of_mem _ h)) ?_]
      · simp
      · simpa [akeys_append, akeys_cons] using hnd

theorem flattenBindings_eq :
    ∀ (N : List (String × List (String × String))) (l : List (BKey × String)),
      (∀ e ∈ N, ∀ ka ∈ e.2, ka.2 ≠ "" ∧ ∃ b : Nat, ka.1 = Nat.repr b) →
      (akeys (l ++ ungroup N)).Nodup →
      flattenBindings N (some l) = some (l ++ ungroup N) := by
  intro N
  induction N with
  | nil => intro l _ _; simp [flattenBindings, ungroup]
  | cons e rest ih =>
      intro l hk hnd
      obtain ⟨s, inner⟩ := e
      rw [show ungroup ((s, inner) :: rest) = innerFlat s inner ++ ungroup rest from rfl]
        at hnd ⊢
      rw [show flattenBindings ((s, inner) :: rest) (some l)
          = flattenBindings rest (flattenInner s (some l) inner) from rfl]
      have hnd1 : (akeys (l ++ innerFlat s inner)).Nodup := by
        rw [akeys_append, akeys_append] at hnd
        rw [akeys_append]
        rw [← List.append_assoc] at hnd
        exact hnd.of_append_left
      rw [flattenInner_eq s inner l (hk (s, inner) (List.mem_cons_self _ _)) hnd1]
      rw [ih (l ++ innerFlat s inner) (fun e he => hk e (List.mem_cons_of_mem _ he)) ?_]
      · simp
      · simpa [akeys_append, List.append_assoc] using hnd

theorem mem_ungroup_of_inner {acc : List (String × List (String × String))} {s : String}
    {inner : List (String × String)} (hmem : (s, inner) ∈ acc) {k a : String}
    (hka : (k, a) ∈ inner) {b : Nat} (hparse : strToNat? k = some b) :
    ((s, b), a) ∈ ungroup acc := by
  induction acc with
  | nil => cases hmem
  | cons e rest ih =>
      rw [show ungroup (e :: rest) = innerFlat e.1 e.2 ++ ungroup rest from rfl]
      rw [List.mem_append]
      rcases List.mem_cons.mp hmem with he | hm
      · left
        rw [← he]
        exact List.mem_filterMap.mpr ⟨(k, a), hka, by simp [hparse]⟩
      · right
        exact ih hm

theorem ungroup_groupStep (acc : List (String × List (String × String)))
    (e : BKey × String) (hfresh : e.1 ∉ akeys (ungroup acc)) :
    (ungroup (groupStep acc e)).Perm (ungroup acc ++ [e]) := by
  obtain ⟨⟨s, b⟩, a⟩ := e
  cases hl : alookup acc s with
  | none =>
      rw [show groupStep acc ((s, b), a) = acc ++ [(s, [(Nat.repr b, a)])] from by
        simp [groupStep, hl]]
      rw [ungroup_append]
      rw [show ungroup [(s, [(Nat.repr b, a)])] = [((s, b), a)] from by
        rw [show ungroup [(s, [(Nat.repr b, a)])]
            = innerFlat s [(Nat.repr b, a)] ++ ungroup [] from rfl]
        rw [innerFlat_cons_repr]
        rfl]
  | some inner =>
      have hbfresh : Nat.repr b ∉ akeys inner := by
        intro hm
        obtain ⟨a', ha'⟩ := mem_akeys_iff.mp hm
        have hmem : ((s, b), a') ∈ ungroup acc :=
          mem_ungroup_of_inner (alookup_some_mem hl) ha' (strToNat_repr b)
        exact hfresh (mem_akeys_iff.mpr ⟨a', hmem⟩)
      obtain ⟨pre, post, heq, hpre, hset⟩ := alookup_split hl
      rw [show groupStep acc ((s, b), a) = aset acc s (aset inner (Nat.repr b) a) from by
        simp [groupStep, hl]]
      rw [aset_append_fresh inner (Nat.repr b) a hbfresh]
      rw [hset (inner ++ [(Nat.repr b, a)])]
      conv_rhs => rw [heq]
      rw [ungroup_middle, ungroup_middle, innerFlat_append]
      rw [show innerFlat s [(Nat.repr b, a)] = [((s, b), a)] from by
        rw [innerFlat_cons_repr]
        simp [innerFlat]]
      simp only [List.append_assoc]
      exact List.Perm.append_left _ (List.Perm.append_left _ List.perm_append_comm)

theorem ungroup_foldl_perm :
    ∀ (bs : List (BKey × String)) (acc : List (String × List (String × String))),
      (akeys (ungroup acc ++ bs)).Nodup →
      (ungroup (List.foldl groupStep acc bs)).Perm (ungroup acc ++ bs) := by
  intro bs
  induction bs with
  | nil => intro acc _; simp
  | cons e rest ih =>
      intro acc hnd
      have hfresh : e.1 ∉ akeys (ungroup acc) := by
        rw [akeys_append] at hnd
        have hd := List.disjoint_of_nodup_append hnd
        intro hm
        exact hd hm (by rw [akeys_cons]; simp)
      have hstep := ungroup_groupStep acc e hfresh
      rw [List.foldl_cons]
      have hkeyperm : (akeys (ungroup acc ++ e :: rest)).Perm
          (akeys (ungroup (groupStep acc e) ++ rest)) := by
        rw [akeys_append, akeys_append, akeys_cons]
        have h1 : (akeys (ungroup (groupStep acc e))).Perm
            (akeys (ungroup acc) ++ [e.1]) := by
          have hm := hstep.map Prod.fst
          simpa [akeys, akeys_append] using hm
        have h2 : ((akeys (ungroup acc) ++ [e.1]) ++ akeys rest).Perm
            (akeys (ungroup (groupStep acc e)) ++ akeys rest) :=
          List.Perm.append_right _ h1.symm
        have h3 : akeys (ungroup acc) ++ e.1 :: akeys rest
            = (akeys (ungroup acc) ++ [e.1]) ++ akeys rest := by simp
        rw [h3]
        exact h2
      have hnd' : (akeys (ungroup (groupStep acc e) ++ rest)).Nodup :=
        hkeyperm.nodup hnd
      have hmain := ih (groupStep acc e) hnd'
      have h2 := hstep.append_right rest
      have h3 : (ungroup acc ++ [e]) ++ rest = ungroup acc ++ e :: rest := by simp
      rw [h3] at h2
      exact hmain.trans h2

theorem ungroup_groupBindings_perm (bs : List (BKey × String))
    (hnd : (akeys bs).Nodup) : (ungroup (groupBindings bs)).Perm bs := by
  have h := ungroup_foldl_perm bs [] (by simpa [ungroup, akeys] using hnd)
  simpa [ungroup, groupBindings] using h

theorem canonN_groupStep (acc : List (String × List (String × String)))
    (e : BKey × String) (hane : e.2 ≠ "") (h : CanonN acc) : CanonN (groupStep acc e) := by
  obtain ⟨⟨s, b⟩, a⟩ := e
  simp only at hane
  obtain ⟨hnd, hprops⟩ := h
  cases hl : alookup acc s with
  | none =>
      rw [show groupStep acc ((s, b), a) = acc ++ [(s, [(Nat.repr b, a)])] from by
        simp [groupStep, hl]]
      constructor
      · rw [akeys_append, akeys_cons, akeys_nil]
        have hs : s ∉ akeys acc := (alookup_eq_none_iff acc s).mp hl
        simp [List.nodup_append, hnd, hs]
      · intro e' he'
        rcases List.mem_append.mp he' with hm | hm
        · exact hprops e' hm
        · simp only [List.mem_singleton] at hm
          subst hm
          refine ⟨by simp, by simp [akeys], ?_⟩
          intro ka hka
          simp only [List.mem_singleton] at hka
          subst hka
          exact ⟨hane, ⟨b, rfl⟩⟩
  | some inner =>
      rw [show groupStep acc ((s, b), a) = aset acc s (aset inner (Nat.repr b) a) from by
        simp [groupStep, hl]]
      have hsmem : s ∈ akeys acc := mem_akeys_iff.mpr ⟨inner, alookup_some_mem hl⟩
      obtain ⟨hne', hnd', hprops'⟩ := hprops (s, inner) (alookup_some_mem hl)
      constructor
      · rw [akeys_aset]
        simp [hsmem, hnd]
      · intro e' he'
        rcases mem_aset he' with hm | hm
        · exact hprops e' hm
        · subst hm
          refine ⟨aset_ne_nil _ _ _, ?_, ?_⟩
          · rw [akeys_aset]
            by_cases hmem : Nat.repr b ∈ akeys inner
            · simp [hmem, hnd']
            · simp [hmem, List.nodup_append, hnd']
          · intro ka hka
            rcases mem_aset hka with hm' | hm'
            · exact hprops' ka hm'
            · subst hm'
              exact ⟨hane, ⟨b, rfl⟩⟩

theorem canonN_foldl (bs : List (BKey × String)) :
    ∀ (acc : List (String × List (String × String))), CanonN acc →
      (∀ e ∈ bs, e.2 ≠ "") → CanonN (List.foldl groupStep acc bs) := by
  induction bs with
  | nil => intro acc h _; simpa using h
  | cons e rest ih =>
      intro acc h hne
      rw [List.foldl_cons]
      exact ih (groupStep acc e) (canonN_groupStep acc e (hne e (by simp)) h)
        (fun e' he' => hne e' (by simp [he']))

theorem canonN_groupBindings (bs : List (BKey × String)) (hne : ∀ e ∈ bs, e.2 ≠ "") :
    CanonN (groupBindings bs) :=
  canonN_foldl bs [] ⟨by simp [akeys], by simp⟩ hne

/-- C2 (amended): serialization and reconstruction round-trip.  For a profile whose
bindings dict has (as every Python dict does) unique keys, contains the injected
`(NoFocus, 0) → "Focus Main Window"` binding, stores no empty-string action, and whose
controller resolved from a catalog key equal to its canonical name,
`Profile(p.to_dict()).to_dict()` is exactly `p.to_dict()` — the `(NoFocus, 0)`
re-injection overwrites the identical serialized value, so it is not observable. -/
theorem c2_roundtrip (cat : Catalog) (p : Profile) (c : String)
    (hc : p.controller = some c)
    (hcat : alookup cat c = some c)
    (hkeys : (akeys p.bindings).Nodup)
    (hne : ∀ e ∈ p.bindings, e.2 ≠ "")
    (hnf : alookup p.bindings ("NoFocus", 0) = some "Focus Main Window") :
    ∃ d p', toDict cat p = some d ∧ fromDict cat d = some p' ∧ toDict cat p' = some d := by
  have hcanon := canonN_groupBindings p.bindings hne
  have hperm := ungroup_groupBindings_perm p.bindings hkeys
  have hkeysU : (akeys (ungroup (groupBindings p.bindings))).Nodup := by
    have := (hperm.map Prod.fst).symm
    exact this.nodup hkeys
  have hlookU : ∀ k, alookup (ungroup (groupBindings p.bindings)) k
      = alookup p.bindings k := alookup_perm hperm hkeysU
  have hnameC : ctrlName cat c = c := by simp [ctrlName, hcat]
  have hmemC : c ∈ catKeys cat := mem_akeys_iff.mpr ⟨c, alookup_some_mem hcat⟩
  have hd : toDict cat p = some
      { name := p.name
        size := p.size
        controller := c
        quickSelect := p.quickSelect
        bindings := groupBindings p.bindings
        axesBindings := p.axesBindings } := by
    simp [toDict, hc, hnameC]
  have hNnonempty : groupBindings p.bindings ≠ [] := by
    intro hN
    rw [hN] at hperm
    have hpb : p.bindings = [] := List.Perm.eq_nil (List.Perm.symm hperm)
    rw [hpb] at hnf
    simp [alookup] at hnf
  have hflat : flattenBindings (groupBindings p.bindings) (some []) =
      some (ungroup (groupBindings p.bindings)) := by
    have := flattenBindings_eq (groupBindings p.bindings) []
      (fun e he ka hka => (hcanon.2 e he).2.2 ka hka)
      (by simpa using hkeysU)
    simpa using this
  have hnofocus : aset (ungroup (groupBindings p.bindings)) ("NoFocus", 0)
      "Focus Main Window" = ungroup (groupBindings p.bindings) :=
    aset_eq_of_alookup _ _ _ ((hlookU ("NoFocus", 0)).trans hnf)
  have hfrom : fromDict cat
      { name := p.name
        size := p.size
        controller := c
        quickSelect := p.quickSelect
        bindings := groupBindings p.bindings
        axesBindings := p.axesBindings } = some
      { bindings := ungroup (groupBindings p.bindings)
        quickSelect := p.quickSelect
        name := p.name
        size := p.size
        controller := some c
        axesBindings := p.axesBindings } := by
    have hie : (groupBindings p.bindings).isEmpty = false := by
      cases hgb : groupBindings p.bindings with
      | nil => exact absurd hgb hNnonempty
      | cons a l => rfl
    rw [fromDict, hie]
    simp only [Bool.false_eq_true, if_false]
    rw [hflat]
    simp only [hnofocus, hmemC, if_pos]
  refine ⟨_, _, hd, hfrom, ?_⟩
  rw [toDict]
  simp only
  rw [hnameC]
  rw [show groupBindings (ungroup (groupBindings p.bindings)) = groupBindings p.bindings
    from groupBindings_ungroup_of_canon _ hcanon]

/-- A valid profile that stores an explicit empty-string action. -/
def p2bad : Profile :=
  { bindings := [(("NoFocus", 0), "Focus Main Window"), (("all", 1), "")]
    quickSelect := ""
    name := "B"
    size := (2, 0)
    controller := some "DualShock 4"
    axesBindings := [] }

/-- `p2bad.to_dict()`. -/
def d2bad : ProfileDict :=
  { name := "B"
    size := (2, 0)
    controller := "DualShock 4"
    quickSelect := ""
    bindings := [("NoFocus", [("0", "Focus Main Window")]), ("all", [("1", "")])]
    axesBindings := [] }

/-- The profile reconstructed from `d2bad`: the empty action was dropped. -/
def p2rt : Profile :=
  { bindings := [(("NoFocus", 0), "Focus Main Window")]
    quickSelect := ""
    name := "B"
    size := (2, 0)
    controller := some "DualShock 4"
    axesBindings := [] }

/-- `p2rt.to_dict()`: the serialized profile after the round trip. -/
def d2rt : ProfileDict :=
  { name := "B"
    size := (2, 0)
    controller := "DualShock 4"
    quickSelect := ""
    bindings := [("NoFocus", [("0", "Focus Main Window")])]
    axesBindings := [] }

/-- C2 counterexample: `p2bad` passes `profile_is_valid`, yet
`Profile(p2bad.to_dict()).to_dict()` differs from `p2bad.to_dict()` at a key other
than the injected `(NoFocus, 0)` one — reconstruction drops the stored empty-string
action at `("all", "1")`, so the round trip loses that entry. -/
theorem c2_counterexample :
    profileIsValid catEx p2bad = true ∧
    toDict catEx p2bad = some d2bad ∧
    fromDict catEx d2bad = some p2rt ∧
    toDict catEx p2rt = some d2rt ∧
    d2rt ≠ d2bad ∧
    alookup d2bad.bindings "all" = some [("1", "")] ∧
    alookup d2rt.bindings "all" = none := by
  decide

/-- Witness for C2 at the concrete profile `pEx` over the catalog `catEx`. -/
theorem c2_witness :
    (pEx.controller = some "DualShock 4" ∧
      alookup catEx "DualShock 4" = some "DualShock 4" ∧
      (akeys pEx.bindings).Nodup ∧
      (∀ e ∈ pEx.bindings, e.2 ≠ "") ∧
      alookup pEx.bindings ("NoFocus", 0) = some "Focus Main Window") ∧
    ∃ d p', toDict catEx pEx = some d ∧ fromDict catEx d = some p' ∧
      toDict catEx p' = some d :=
  ⟨⟨by decide, by decide, by decide, by decide, by decide⟩,
   c2_roundtrip catEx pEx "DualShock 4" (by decide) (by decide) (by decide)
     (by decide) (by decide)⟩

/-! ### The controller module (`contanki/controller.py`) -/

/-- `indicies[buttons.index(name)]`: the index paired with the first occurrence of a
button name in the `buttons` dict (items in insertion order). -/
def firstIndexOf (buttons : List (Nat × String)) (name : String) : Nat :=
  match buttons.find? (fun e => e.2 = name) with
  | some e => e.1
  | none => 0

/-- `Controller.get_dpad_buttons`, over the entry's `has_dpad` flag and `buttons` dict
(as insertion-ordered (index, name) pairs).  `zip(*self.buttons.items())` raises on an
empty dict — the `.error` case; that line runs only after the `has_dpad` early
return. -/
def get_dpad_buttons (hasDpad : Bool) (buttons : List (Nat × String)) :
    Except Unit (Option (Nat × Nat × Nat × Nat)) :=
  if hasDpad = false then Except.ok none
  else if buttons = [] then Except.error ()
  else if "D-Pad Up" ∈ buttons.map Prod.snd ∧ "D-Pad Down" ∈ buttons.map Prod.snd ∧
      "D-Pad Left" ∈ buttons.map Prod.snd ∧ "D-Pad Right" ∈ buttons.map Prod.snd then
    Except.ok (some (firstIndexOf buttons "D-Pad Up",
      firstIndexOf buttons "D-Pad Down",
      firstIndexOf buttons "D-Pad Left",
      firstIndexOf buttons "D-Pad Right"))
  else Except.ok none

theorem firstIndexOf_mem (buttons : List (Nat × String)) (name : String)
    (h : name ∈ buttons.map Prod.snd) : (firstIndexOf buttons name, name) ∈ buttons := by
  induction buttons with
  | nil => simp at h
  | cons e rest ih =>
      obtain ⟨i, n⟩ := e
      by_cases hn : n = name
      · subst hn
        simp [firstIndexOf, List.find?_cons]
      · rw [List.map_cons, List.mem_cons] at h
        rcases h with he | hm
        · exact absurd he.symm hn
        · rw [show firstIndexOf ((i, n) :: rest) name = firstIndexOf rest name from by
            simp [firstIndexOf, List.find?_cons, hn]]
          exact List.mem_cons_of_mem _ (ih hm)

/-- C7: for a catalog entry with `has_dpad` set, when all four D-pad button names are
present `dpad_buttons` is the 4-tuple of their (first-occurrence) indices in
(up, down, left, right) order — each returned index is genuinely paired with the
corresponding name in the entry — and when any one of the four names is missing (the
entry still having at least one button, as any constructible `Controller` does),
`dpad_buttons` is absent. -/
theorem c7_dpad_buttons (hasDpad : Bool) (buttons : List (Nat × String))
    (hd : hasDpad = true) :
    (("D-Pad Up" ∈ buttons.map Prod.snd ∧ "D-Pad Down" ∈ buttons.map Prod.snd ∧
      "D-Pad Left" ∈ buttons.map Prod.snd ∧ "D-Pad Right" ∈ buttons.map Prod.snd) →
      get_dpad_buttons hasDpad buttons =
        Except.ok (some (firstIndexOf buttons "D-Pad Up",
          firstIndexOf buttons "D-Pad Down",
          firstIndexOf buttons "D-Pad Left",
          firstIndexOf buttons "D-Pad Right")) ∧
      (firstIndexOf buttons "D-Pad Up", "D-Pad Up") ∈ buttons ∧
      (firstIndexOf buttons "D-Pad Down", "D-Pad Down") ∈ buttons ∧
      (firstIndexOf buttons "D-Pad Left", "D-Pad Left") ∈ buttons ∧
      (firstIndexOf buttons "D-Pad Right", "D-Pad Right") ∈ buttons) ∧
    (buttons ≠ [] →
      ¬("D-Pad Up" ∈ buttons.map Prod.snd ∧ "D-Pad Down" ∈ buttons.map Prod.snd ∧
        "D-Pad Left" ∈ buttons.map Prod.snd ∧ "D-Pad Right" ∈ buttons.map Prod.snd) →
      get_dpad_buttons hasDpad buttons = Except.ok none) := by
  subst hd
  constructor
  · intro h4
    have hne : buttons ≠ [] := by
      intro hb
      rw [hb] at h4
      simp at h4
    refine ⟨?_, firstIndexOf_mem _ _ h4.1, firstIndexOf_mem _ _ h4.2.1,
      firstIndexOf_mem _ _ h4.2.2.1, firstIndexOf_mem _ _ h4.2.2.2⟩
    unfold get_dpad_buttons
    rw [if_neg (by simp), if_neg hne, if_pos h4]
  · intro hne hmiss
    unfold get_dpad_buttons
    rw [if_neg (by simp), if_neg hne, if_neg hmiss]

/-- A concrete catalog entry's buttons for the C7 witness. -/
def dpadButtonsEx : List (Nat × String) :=
  [(0, "A"), (1, "D-Pad Up"), (2, "D-Pad Down"), (3, "D-Pad Left"), (4, "D-Pad Right")]

/-- Witness for C7: the hypotheses discharged at a concrete buttons dict with all four
D-pad names present, and at one with "D-Pad Left" missing. -/
theorem c7_witness :
    (("D-Pad Up" ∈ dpadButtonsEx.map Prod.snd ∧
      "D-Pad Down" ∈ dpadButtonsEx.map Prod.snd ∧
      "D-Pad Left" ∈ dpadButtonsEx.map Prod.snd ∧
      "D-Pad Right" ∈ dpadButtonsEx.map Prod.snd) ∧
      (get_dpad_buttons true dpadButtonsEx =
        Except.ok (some (firstIndexOf dpadButtonsEx "D-Pad Up",
          firstIndexOf dpadButtonsEx "D-Pad Down",
          firstIndexOf dpadButtonsEx "D-Pad Left",
          firstIndexOf dpadButtonsEx "D-Pad Right")) ∧
      (firstIndexOf dpadButtonsEx "D-Pad Up", "D-Pad Up") ∈ dpadButtonsEx ∧
      (firstIndexOf dpadButtonsEx "D-Pad Down", "D-Pad Down") ∈ dpadButtonsEx ∧
      (firstIndexOf dpadButtonsEx "D-Pad Left", "D-Pad Left") ∈ dpadButtonsEx ∧
      (firstIndexOf dpadButtonsEx "D-Pad Right", "D-Pad Right") ∈ dpadButtonsEx)) ∧
    (([(0, "A"), (1, "D-Pad Up")] : List (Nat × String)) ≠ [] ∧
      get_dpad_buttons true [(0, "A"), (1, "D-Pad Up")] = Except.ok none) :=
  ⟨⟨by decide, (c7_dpad_buttons true dpadButtonsEx rfl).1 (by decide)⟩,
   ⟨by decide, (c7_dpad_buttons true [(0, "A"), (1, "D-Pad Up")] rfl).2 (by decide)
     (by decide)⟩⟩

/-- Python `str.lower()` (the ids involved are ASCII). -/
def lowerStr (s : String) : String := String.mk (s.data.map Char.toLower)

/-- Contiguous-sublist test on character lists. -/
def infixOfAux (pat : List Char) : List Char → Bool
  | [] => pat.isEmpty
  | c :: rest => pat.isPrefixOf (c :: rest) || infixOfAux pat rest

/-- Python's substring test `pat in s`. -/
def strContains (s pat : String) : Bool := infixOfAux pat.data s.data

/-- A regex `\w` word character (ASCII relevant range). -/
def isWordChar (c : Char) : Bool := c.isAlphanum || c = '_'

/-- Leftmost match of the pattern `<tag>(\w{4})` (`re.search` semantics): scan for the
literal tag followed by four word characters and return that 4-character group. -/
def scanTag (tag : List Char) : List Char → Option (List Char)
  | [] => none
  | c :: rest =>
      if tag.isPrefixOf (c :: rest) then
        match (c :: rest).drop tag.length with
        | c₁ :: c₂ :: c₃ :: c₄ :: _ =>
            if isWordChar c₁ && isWordChar c₂ && isWordChar c₃ && isWordChar c₄ then
              some [c₁, c₂, c₃, c₄]
            else scanTag tag rest
        | _ => scanTag tag rest
      else scanTag tag rest

/-- `parse_controller_id`: extract the lower-cased 4-hex-character vendor and product
tokens, each `none` when its pattern does not occur. -/
def parse_controller_id (controllerId : String) : Option String × Option String :=
  ((scanTag "Vendor: ".data controllerId.data).map
      (fun l => String.mk (l.map Char.toLower)),
   (scanTag "Product: ".data controllerId.data).map
      (fun l => String.mk (l.map Char.toLower)))

/-- `controller_name_tuple`: the bare canonical name and the button-count-suffixed
disambiguation variant. -/
def controller_name_tuple (name : String) (buttons : Nat) : String × String :=
  (name, name ++ " (" ++ Nat.repr buttons ++ " buttons)")

/-- The vendor→product→name database of `controllerIDs.json` (a data file outside the
sources; its contents are a parameter, per the spec the values are canonical names or
the sentinel "invalid"). -/
abbrev DeviceDB := List (String × List (String × String))

/-- `controller_ids["devices"][vendor_id][device_id]`, `none` on `KeyError` (including
a `None` vendor/product). -/
def dbLookup (db : DeviceDB) (vendorId deviceId : Option String) : Option String :=
  match vendorId, deviceId with
  | some v, some d => (alookup db v).bind fun ps => alookup ps d
  | _, _ => none

/-- The guarded database step of `identify_controller`: attempted only when the vendor
is "2dc8" or the raw id does not mention "8bitdo". -/
def dbAttempt (db : DeviceDB) (id_ : String) (vendorId deviceId : Option String) :
    Option String :=
  if vendorId = some "2dc8" ∨ strContains (lowerStr id_) "8bitdo" = false then
    dbLookup db vendorId deviceId
  else none

/-- The free-text heuristic chain of `identify_controller` (source lines 156-201) over
the lower-cased id: returns the resolved device name, `dn` when no rule fires.  In the
Joy-Con branch the `"pro"`/`"left"` assignments are dead: the trailing
`if "right" ... else ...` overwrites them on both paths, which the embedding keeps. -/
def freeTextName (idL : String) (buttons : Nat) (dn : String) : String :=
  if strContains idL "dualshock" || strContains idL "playstation" ||
      strContains idL "sony" then
    if buttons = 17 then "DualShock 3"
    else if strContains idL "dualsense" then "DualSense"
    else if buttons = 18 then "DualShock 4"
    else dn
  else if strContains idL "xbox" || strContains idL "microsoft" then
    if strContains idL "360" || strContains idL "adaptive" then "Xbox 360"
    else if strContains idL "one" then "Xbox One"
    else if strContains idL "series" || strContains idL "elite" then "Xbox Series"
    else if buttons = 17 then "Xbox 360"
    else "Xbox Series"
  else if strContains idL "joycon" || strContains idL "joy-con" ||
      strContains idL "switch" then
    if strContains idL "right" then "Joy-Con Right" else "Joy-Con"
  else if strContains idL "steam" || strContains idL "valve" then "Steam Controller"
  else if strContains idL "8bitdo" then
    if strContains idL "zero" then
      if buttons = 17 then "8BitDo Zero (X Input)" else "8BitDo Zero (D Input)"
    else if strContains idL "lite" then "8BitDo Lite"
    else if strContains idL "pro" then "8BitDo Pro"
    else dn
  else if strContains idL "ps3" then "DualShock 3"
  else if strContains idL "ps4" then "DualShock 4"
  else if strContains idL "ps5" || strContains idL "dualsense" then "DualSense"
  else dn

/-- `identify_controller`.  `db` stands for the `controllerIDs.json` devices table and
`catalog` for the `CONTROLLERS` key list (both data files outside the sources); `ebd`
is the keyword flag gating the 8BitDo spoof overrides, `False` unless passed. -/
def identify_controller (db : DeviceDB) (catalog : List String) (id_ : String)
    (buttons numAxes : Nat) (ebd : Bool) : Option (String × String) :=
  let vendorId := (parse_controller_id id_).1
  let deviceId := (parse_controller_id id_).2
  if id_ = "Joy-Con (L/R) (STANDARD GAMEPAD)" then none
  else if ebd = true ∧ ((vendorId = some "054c" ∧ deviceId = some "05c4") ∨
      (vendorId = some "045e" ∧ deviceId = some "028e")) then
    some (controller_name_tuple "8BitDo Pro" buttons)
  else if ebd = true ∧ vendorId = some "045e" ∧ deviceId = some "02e0" then
    some (controller_name_tuple "8BitDo Zero (X Input)" buttons)
  else
    match dbAttempt db id_ vendorId deviceId with
    | some dn =>
        if dn ∈ catalog then some (controller_name_tuple dn buttons)
        else if dn = "invalid" then none
        else some (controller_name_tuple (freeTextName (lowerStr id_) buttons dn) buttons)
    | none =>
        some (controller_name_tuple (freeTextName (lowerStr id_) buttons id_) buttons)

/-- C5 (amended): the special-case spoof override fires only when the `ebd` flag is
passed as true; with it, `identify` on the raw id containing vendor 054c / product
05c4 resolves to the "8BitDo Pro" catalog name with the "(18 buttons)" disambiguation
variant, for every database and catalog — the free-text heuristics and the database
are never consulted. -/
theorem c5_ebd_override (db : DeviceDB) (catalog : List String) :
    identify_controller db catalog "Vendor: 054c Product: 05c4" 18 4 true =
      some ("8BitDo Pro", "8BitDo Pro (18 buttons)") := by
  have hv : parse_controller_id "Vendor: 054c Product: 05c4" =
      (some "054c", some "05c4") := by decide
  rw [identify_controller]
  rw [hv]
  rw [if_neg (by decide)]
  rw [if_pos ⟨rfl, Or.inl ⟨rfl, rfl⟩⟩]
  rfl

/-- C5 counterexample: the claimed three-argument call leaves `ebd` at its default
`False`, so the override is skipped: over the spec-modelled empty database the call
degrades to the fallback identity and its canonical name is not "8BitDo Pro" (and no
"(A)"-suffixed variant exists anywhere in `identify`'s output language). -/
theorem c5_counterexample :
    identify_controller [] [] "Vendor: 054c Product: 05c4" 18 4 false =
      some ("Vendor: 054c Product: 05c4", "Vendor: 054c Product: 05c4 (18 buttons)") ∧
    (identify_controller [] [] "Vendor: 054c Product: 05c4" 18 4 false).map Prod.fst ≠
      some "8BitDo Pro" ∧
    (identify_controller [] [] "Vendor: 054c Product: 05c4" 18 4 false).map Prod.snd ≠
      some "8BitDo Pro (A)" := by
  refine ⟨?_, ?_, ?_⟩ <;> decide

/-- C6 (amended): inside the DualShock/PlayStation/Sony free-text branch, the
"dualsense" substring takes precedence over the 18-button rule but NOT over the
17-button rule, which is tested first: for every id that reaches the free-text step
and mentions "dualsense", identify resolves to "DualSense" for every button count
other than 17. -/
theorem c6_dualsense_precedence (db : DeviceDB) (catalog : List String) (id_ : String)
    (buttons numAxes : Nat)
    (hid : id_ ≠ "Joy-Con (L/R) (STANDARD GAMEPAD)")
    (hsony : strContains (lowerStr id_) "dualshock" = true ∨
      strContains (lowerStr id_) "playstation" = true ∨
      strContains (lowerStr id_) "sony" = true)
    (hdse : strContains (lowerStr id_) "dualsense" = true)
    (hb : buttons ≠ 17)
    (hlk : ∀ dn, dbAttempt db id_ (parse_controller_id id_).1
        (parse_controller_id id_).2 = some dn → dn ∉ catalog ∧ dn ≠ "invalid") :
    identify_controller db catalog id_ buttons numAxes false =
      some ("DualSense", "DualSense (" ++ Nat.repr buttons ++ " buttons)") := by
  have hfree : ∀ dn, freeTextName (lowerStr id_) buttons dn = "DualSense" := by
    intro dn
    rw [freeTextName]
    rw [if_pos (by
      rcases hsony with h | h | h <;> simp [h])]
    rw [if_neg hb, if_pos hdse]
  rw [identify_controller]
  rw [if_neg hid]
  rw [if_neg (by simp)]
  rw [if_neg (by simp)]
  cases hdb : dbAttempt db id_ (parse_controller_id id_).1 (parse_controller_id id_).2 with
  | none =>
      show some (controller_name_tuple (freeTextName (lowerStr id_) buttons id_) buttons)
        = some ("DualSense", "DualSense (" ++ Nat.repr buttons ++ " buttons)")
      rw [hfree]
      rfl
  | some dn =>
      obtain ⟨hnc, hni⟩ := hlk dn hdb
      show (if dn ∈ catalog then some (controller_name_tuple dn buttons)
        else if dn = "invalid" then none
        else some (controller_name_tuple (freeTextName (lowerStr id_) buttons dn) buttons))
        = some ("DualSense", "DualSense (" ++ Nat.repr buttons ++ " buttons)")
      rw [if_neg hnc, if_neg hni, hfree]
      rfl

/-- C6 counterexample: an id in the Sony branch containing "dualsense" with a reported
button count of 17 resolves to "DualShock 3" — the 17-button rule precedes the
"dualsense" substring rule — so "DualSense" does not win for every button count. -/
theorem c6_counterexample :
    strContains (lowerStr "Sony DualSense") "sony" = true ∧
    strContains (lowerStr "Sony DualSense") "dualsense" = true ∧
    identify_controller [] [] "Sony DualSense" 17 0 false =
      some ("DualShock 3", "DualShock 3 (17 buttons)") := by
  refine ⟨?_, ?_, ?_⟩ <;> decide

/-- Witness for C6 at the concrete id "Sony DualSense" with 18 buttons over the
spec-modelled empty database. -/
theorem c6_witness :
    (("Sony DualSense" : String) ≠ "Joy-Con (L/R) (STANDARD GAMEPAD)" ∧
      strContains (lowerStr "Sony DualSense") "sony" = true ∧
      strContains (lowerStr "Sony DualSense") "dualsense" = true ∧
      (18 : Nat) ≠ 17) ∧
    identify_controller [] [] "Sony DualSense" 18 0 false =
      some ("DualSense", "DualSense (" ++ Nat.repr 18 ++ " buttons)") :=
  ⟨⟨by decide, by decide, by decide, by decide⟩,
   c6_dualsense_precedence [] [] "Sony DualSense" 18 0 (by decide)
     (Or.inr (Or.inr (by decide))) (by decide) (by decide)
     (fun dn h => by
       rw [show dbAttempt [] "Sony DualSense" (parse_controller_id "Sony DualSense").1
           (parse_controller_id "Sony DualSense").2 = none from by decide] at h
       cases h)⟩

/-! ### Profile store / matcher (`find_profile`, profile.py lines 152-272) -/

/-- The persistent state `find_profile` reads and writes, modelled from the spec's
file-storage interface: the controller→profile association record (the "controllers"
file) and the user/default profile directories as filename → document maps.  `slugify`
(in `utils`, not in the sources) is kept as a parameter throughout. -/
structure Store where
  assoc : List (String × String)
  userProfiles : List (String × ProfileDict)
  defaultProfiles : List (String × ProfileDict)
  deriving Repr, DecidableEq

/-- `os.listdir(user_profile_path)` (plus the defaults directory when requested). -/
def listFiles (st : Store) (defaults : Bool) : List String :=
  akeys st.userProfiles ++ (if defaults then akeys st.defaultProfiles else [])

/-- `load_profile`: the user path, the default path, then the slugified name under
both, first hit wins. -/
def loadProfile (slug : String → String) (st : Store) (name : String) :
    Option ProfileDict :=
  match alookup st.userProfiles name with
  | some d => some d
  | none =>
      match alookup st.defaultProfiles name with
      | some d => some d
      | none =>
          match alookup st.userProfiles (slug name) with
          | some d => some d
          | none => alookup st.defaultProfiles (slug name)

/-- `profile_is_valid` on a profile name: the "placeholder" file is never valid, a
missing file is invalid, otherwise the document checks decide. -/
def profileFileIsValid (cat : Catalog) (slug : String → String) (st : Store)
    (name : String) : Bool :=
  if name = "placeholder" then false
  else
    match loadProfile slug st name with
    | none => false
    | some d => profileDictIsValid cat d

/-- `get_profile`: load and construct when valid, `None` otherwise. -/
def get_profile (cat : Catalog) (slug : String → String) (st : Store) (name : String) :
    Option Profile :=
  if profileFileIsValid cat slug st name then
    (loadProfile slug st name).bind (fromDict cat)
  else none

/-- Insertion into a sorted string list (for Python's `sorted`). -/
def insertSorted (x : String) : List String → List String
  | [] => [x]
  | y :: ys => if x ≤ y then x :: y :: ys else y :: insertSorted x ys

/-- Python's `sorted` on strings (only membership matters to the claims). -/
def sortStrings : List String → List String
  | [] => []
  | x :: xs => insertSorted x (sortStrings xs)

theorem mem_insertSorted (a x : String) (l : List String) :
    a ∈ insertSorted x l ↔ a = x ∨ a ∈ l := by
  induction l with
  | nil => simp [insertSorted]
  | cons y ys ih =>
      by_cases h : x ≤ y
      · simp [insertSorted, h]
      · simp only [insertSorted, h, if_neg, not_false_iff, List.mem_cons, ih]
        tauto

theorem mem_sortStrings (a : String) (l : List String) :
    a ∈ sortStrings l ↔ a ∈ l := by
  induction l with
  | nil => simp [sortStrings]
  | cons x xs ih => simp [sortStrings, mem_insertSorted, ih]

/-- `get_profile_list`: names of the valid profiles among the listed files, sorted. -/
def get_profile_list (cat : Catalog) (slug : String → String) (st : Store)
    (defaults : Bool) : List String :=
  sortStrings ((listFiles st defaults).filterMap fun f =>
    if profileFileIsValid cat slug st f then (loadProfile slug st f).map ProfileDict.name
    else none)

/-- `Profile.save`: serialize and write under the slugified profile name in the user
directory (`to_dict` fails when the controller attribute is unset). -/
def saveProfile (cat : Catalog) (slug : String → String) (st : Store) (p : Profile) :
    Option Store :=
  (toDict cat p).map fun d =>
    { st with userProfiles := aset st.userProfiles (slug p.name) d }

/-- `copy_profile` (name-to-name): load the source profile, rename, save. -/
def copy_profile (cat : Catalog) (slug : String → String) (st : Store)
    (name newName : String) : Option (Profile × Store) :=
  match get_profile cat slug st name with
  | none => none
  | some p =>
      (saveProfile cat slug st { p with name := newName }).map fun st' =>
        ({ p with name := newName }, st')

/-- `update_controllers`: a non-empty profile name is recorded, an empty one deletes
the association. -/
def update_controllers (st : Store) (c : String) (profile : String) : Store :=
  if profile ≠ "" then { st with assoc := aset st.assoc c profile }
  else { st with assoc := adel st.assoc c }

/-- The `f"Standard Gamepad ({buttons} Buttons {axes} Axes)"` template name. -/
def stdGamepadName (buttons axes : Nat) : String :=
  "Standard Gamepad (" ++ Nat.repr buttons ++ " Buttons " ++ Nat.repr axes ++ " Axes)"

/-- The continuation of `find_profile` after the association-record check: `st₁` is
the store (the stale association already cleared when there was one) and
`user_profiles` the listing computed at entry. -/
def findProfileRest (cat : Catalog) (slug : String → String) (st₁ : Store)
    (controller : String) (buttons axes : Nat) (user_profiles : List String) :
    Option (String × Store) :=
  if controller ∈ user_profiles then
    some (controller, update_controllers st₁ controller controller)
  else
    let default_profiles := get_profile_list cat slug st₁ true
    let profile_to_copy :=
      if controller ∈ default_profiles then controller
      else if stdGamepadName buttons axes ∈ default_profiles then
        stdGamepadName buttons axes
      else "Standard Gamepad (18 Buttons 4 Axes)"
    match copy_profile cat slug st₁ profile_to_copy controller with
    | none => none
    | some (p, st₂) =>
        let st₃ := update_controllers st₂ controller p.name
        if controller ∈ catKeys cat then
          match saveProfile cat slug st₃ { p with controller := some controller } with
          | none => none
          | some st₄ => some (p.name, st₄)
        else some (p.name, st₃)

/-- `find_profile`.  Early returns become the branches; the store threading mirrors
the file writes. -/
def find_profile (cat : Catalog) (slug : String → String) (st : Store)
    (controller : String) (buttons axes : Nat) : Option (String × Store) :=
  let user_profiles := get_profile_list cat slug st false
  match alookup st.assoc controller with
  | some pn =>
      if pn ∈ user_profiles then some (pn, st)
      else
        findProfileRest cat slug (update_controllers st controller "") controller
          buttons axes user_profiles
  | none => findProfileRest cat slug st controller buttons axes user_profiles

/-- The template `find_profile` copies for a controller with no default profile of its
own name: the shape-matched standard gamepad when present, else the hard-coded
fallback. -/
def chooseTemplate (cat : Catalog) (slug : String → String) (st : Store)
    (buttons axes : Nat) : String :=
  if stdGamepadName buttons axes ∈ get_profile_list cat slug st true then
    stdGamepadName buttons axes
  else "Standard Gamepad (18 Buttons 4 Axes)"

theorem profileDictIsValid_iff (cat : Catalog) (d : ProfileDict) :
    profileDictIsValid cat d = true ↔
      ((∀ e ∈ d.bindings, e.1 ∈ StateSet) ∧ d.controller ∈ catKeys cat ∧
        (fromDict cat d).isSome = true) := by
  unfold profileDictIsValid
  simp [List.all_eq_true, Bool.and_eq_true, and_assoc]

theorem profileFileIsValid_elim {cat : Catalog} {slug : String → String} {st : Store}
    {name : String} (h : profileFileIsValid cat slug st name = true) :
    name ≠ "placeholder" ∧
      ∃ d, loadProfile slug st name = some d ∧ profileDictIsValid cat d = true := by
  unfold profileFileIsValid at h
  by_cases hp : name = "placeholder"
  · rw [if_pos hp] at h
    cases h
  · rw [if_neg hp] at h
    cases hl : loadProfile slug st name with
    | none => rw [hl] at h; cases h
    | some d =>
        rw [hl] at h
        exact ⟨hp, d, rfl, h⟩

theorem fromDict_elim {cat : Catalog} {d : ProfileDict} {p : Profile}
    (h : fromDict cat d = some p) :
    ∃ bs, flattenBindings d.bindings (some []) = some bs ∧
      p.bindings = aset bs ("NoFocus", 0) "Focus Main Window" ∧
      p.quickSelect = d.quickSelect ∧ p.name = d.name ∧ p.size = d.size ∧
      p.controller = (if d.controller ∈ catKeys cat then some d.controller else none) ∧
      p.axesBindings = d.axesBindings := by
  unfold fromDict at h
  by_cases he : d.bindings.isEmpty
  · rw [if_pos he] at h; cases h
  · rw [if_neg he] at h
    cases hf : flattenBindings d.bindings (some []) with
    | none => rw [hf] at h; cases h
    | some bs =>
        rw [hf] at h
        simp only [Option.some.injEq] at h
        subst h
        exact ⟨bs, rfl, rfl, rfl, rfl, rfl, rfl, rfl⟩

theorem nodup_akeys_aset {α β : Type} [DecidableEq α] {l : List (α × β)} (k : α) (v : β)
    (h : (akeys l).Nodup) : (akeys (aset l k v)).Nodup := by
  rw [akeys_aset]
  by_cases hm : k ∈ akeys l
  · simpa [hm] using h
  · simp [hm, List.nodup_append, h]

theorem flattenInner_none (s : String) (inner : List (String × String)) :
    flattenInner s none inner = none := by
  cases inner <;> simp [flattenInner]

theorem flattenBindings_none (N : List (String × List (String × String))) :
    flattenBindings N none = none := by
  induction N with
  | nil => simp [flattenBindings]
  | cons e rest ih =>
      rw [show flattenBindings (e :: rest) none
          = flattenBindings rest (flattenInner e.1 none e.2) from rfl]
      rw [flattenInner_none]
      exact ih

theorem flattenInner_inv (s : String) :
    ∀ (inner : List (String × String)) (l bs : List (BKey × String)),
      flattenInner s (some l) inner = some bs →
      ∀ e ∈ bs, e ∈ l ∨ (e.1.1 = s ∧ e.2 ≠ "") := by
  intro inner
  induction inner with
  | nil =>
      intro l bs h e he
      simp only [flattenInner, Option.some.injEq] at h
      subst h
      exact Or.inl he
  | cons ka rest ih =>
      intro l bs h e he
      obtain ⟨k₁, a₁⟩ := ka
      cases hp : strToNat? k₁ with
      | none =>
          rw [show flattenInner s (some l) ((k₁, a₁) :: rest) = none from by
            simp [flattenInner, hp]] at h
          cases h
      | some b =>
          rw [show flattenInner s (some l) ((k₁, a₁) :: rest)
              = flattenInner s (some (if a₁ ≠ "" then aset l (s, b) a₁ else l)) rest from by
            simp [flattenInner, hp]] at h
          by_cases ha : a₁ ≠ ""
          · rw [if_pos ha] at h
            rcases ih _ _ h e he with hm | hm
            · rcases mem_aset hm with hm' | hm'
              · exact Or.inl hm'
              · subst hm'
                exact Or.inr ⟨rfl, ha⟩
            · exact Or.inr hm
          · rw [if_neg ha] at h
            exact ih _ _ h e he

theorem flattenInner_nodup (s : String) :
    ∀ (inner : List (String × String)) (l bs : List (BKey × String)),
      flattenInner s (some l) inner = some bs →
      (akeys l).Nodup → (akeys bs).Nodup := by
  intro inner
  induction inner with
  | nil =>
      intro l bs h hn
      simp only [flattenInner, Option.some.injEq] at h
      subst h
      exact hn
  | cons ka rest ih =>
      intro l bs h hn
      obtain ⟨k₁, a₁⟩ := ka
      cases hp : strToNat? k₁ with
      | none =>
          rw [show flattenInner s (some l) ((k₁, a₁) :: rest) = none from by
            simp [flattenInner, hp]] at h
          cases h
      | some b =>
          rw [show flattenInner s (some l) ((k₁, a₁) :: rest)
              = flattenInner s (some (if a₁ ≠ "" then aset l (s, b) a₁ else l)) rest from by
            simp [flattenInner, hp]] at h
          by_cases ha : a₁ ≠ ""
          · rw [if_pos ha] at h
            exact ih _ _ h (nodup_akeys_aset _ _ hn)
          · rw [if_neg ha] at h
            exact ih _ _ h hn

theorem flattenBindings_inv :
    ∀ (N : List (String × List (String × String))) (l bs : List (BKey × String)),
      flattenBindings N (some l) = some bs →
      ∀ e ∈ bs, e ∈ l ∨ (e.1.1 ∈ akeys N ∧ e.2 ≠ "") := by
  intro N
  induction N with
  | nil =>
      intro l bs h e he
      simp only [flattenBindings, Option.some.injEq] at h
      subst h
      exact Or.inl he
  | cons ent rest ih =>
      intro l bs h e he
      obtain ⟨s, inner⟩ := ent
      rw [show flattenBindings ((s, inner) :: rest) (some l)
          = flattenBindings rest (flattenInner s (some l) inner) from rfl] at h
      cases hfi : flattenInner s (some l) inner with
      | none =>
          rw [hfi, flattenBindings_none] at h
          cases h
      | some l' =>
          rw [hfi] at h
          rcases ih _ _ h e he with hm | hm
          · rcases flattenInner_inv s inner l l' hfi e hm with hm' | hm'
            · exact Or.inl hm'
            · exact Or.inr ⟨by rw [akeys_cons]; simp [hm'.1], hm'.2⟩
          · exact Or.inr ⟨by rw [akeys_cons]; exact List.mem_cons_of_mem _ hm.1, hm.2⟩

theorem flattenBindings_nodup :
    ∀ (N : List (String × List (String × String))) (l bs : List (BKey × String)),
      flattenBindings N (some l) = some bs →
      (akeys l).Nodup → (akeys bs).Nodup := by
  intro N
  induction N with
  | nil =>
      intro l bs h hn
      simp only [flattenBindings, Option.some.injEq] at h
      subst h
      exact hn
  | cons ent rest ih =>
      intro l bs h hn
      obtain ⟨s, inner⟩ := ent
      rw [show flattenBindings ((s, inner) :: rest) (some l)
          = flattenBindings rest (flattenInner s (some l) inner) from rfl] at h
      cases hfi : flattenInner s (some l) inner with
      | none =>
          rw [hfi, flattenBindings_none] at h
          cases h
      | some l' =>
          rw [hfi] at h
          exact ih _ _ h (flattenInner_nodup s inner l l' hfi hn)

theorem akeys_groupStep_subset (acc : List (String × List (String × String)))
    (e : BKey × String) : akeys (groupStep acc e) ⊆ akeys acc ++ [e.1.1] := by
  unfold groupStep
  cases alookup acc e.1.1 with
  | some inner =>
      intro x hx
      rw [akeys_aset] at hx
      by_cases hm : e.1.1 ∈ akeys acc
      · rw [if_pos hm] at hx
        exact List.mem_append_left _ hx
      · rw [if_neg hm] at hx
        exact hx
  | none =>
      intro x hx
      rw [akeys_append] at hx
      exact hx

theorem akeys_foldl_groupStep_subset :
    ∀ (bs : List (BKey × String)) (acc : List (String × List (String × String))),
      akeys (List.foldl groupStep acc bs) ⊆ akeys acc ++ bs.map (fun x => x.1.1) := by
  intro bs
  induction bs with
  | nil => intro acc; simp
  | cons e rest ih =>
      intro acc
      rw [List.foldl_cons]
      intro x hx
      have h1 := ih (groupStep acc e) hx
      rw [List.mem_append] at h1
      rcases h1 with hm | hm
      · have h2 := akeys_groupStep_subset acc e hm
        rw [List.mem_append] at h2
        rcases h2 with hm' | hm'
        · exact List.mem_append_left _ hm'
        · rw [List.map_cons]
          rw [List.mem_singleton] at hm'
          exact List.mem_append_right _ (by simp [hm'])
      · rw [List.map_cons]
        exact List.mem_append_right _ (List.mem_cons_of_mem _ hm)

theorem groupStep_ne_nil (acc : List (String × List (String × String)))
    (e : BKey × String) : groupStep acc e ≠ [] := by
  unfold groupStep
  cases alookup acc e.1.1 with
  | some inner => exact aset_ne_nil _ _ _
  | none => simp

theorem foldl_groupStep_ne_nil :
    ∀ (bs : List (BKey × String)) (acc : List (String × List (String × String))),
      acc ≠ [] → List.foldl groupStep acc bs ≠ [] := by
  intro bs
  induction bs with
  | nil => intro acc h; simpa using h
  | cons e rest ih =>
      intro acc _
      rw [List.foldl_cons]
      exact ih (groupStep acc e) (groupStep_ne_nil acc e)

theorem groupBindings_ne_nil (bs : List (BKey × String)) (h : bs ≠ []) :
    groupBindings bs ≠ [] := by
  cases bs with
  | nil => exact absurd rfl h
  | cons e rest =>
      unfold groupBindings
      rw [List.foldl_cons]
      exact foldl_groupStep_ne_nil rest (groupStep [] e) (groupStep_ne_nil [] e)

theorem alookup_isSome_of_mem {α β : Type} [DecidableEq α] {l : List (α × β)} {k : α}
    (h : k ∈ akeys l) : ∃ v, alookup l k = some v := by
  cases hl : alookup l k with
  | none => exact absurd ((alookup_eq_none_iff l k).mp hl) (by simp [h])
  | some v => exact ⟨v, rfl⟩

theorem ctrlName_self {cat : Catalog} {k : String} (hkn : ∀ e ∈ cat, e.2 = e.1)
    (hm : k ∈ catKeys cat) : ctrlName cat k = k := by
  obtain ⟨v, hv⟩ := alookup_isSome_of_mem hm
  have hvm := alookup_some_mem hv
  have := hkn (k, v) hvm
  simp only at this
  rw [ctrlName, hv]
  simp [this]

/-- What `__init__` guarantees about a profile built from a valid dict: the controller
is bound, every binding key's state is enumerated, keys are unique, all stored actions
are non-empty, and the `NoFocus` injection makes the dict non-empty. -/
theorem fromDict_props {cat : Catalog} {dT : ProfileDict} {pT : Profile}
    (hdT : profileDictIsValid cat dT = true)
    (hpT : fromDict cat dT = some pT) :
    pT.controller = some dT.controller ∧
    (∀ e ∈ pT.bindings, e.1.1 ∈ StateSet) ∧
    (akeys pT.bindings).Nodup ∧
    (∀ e ∈ pT.bindings, e.2 ≠ "") ∧
    pT.bindings ≠ [] ∧ pT.name = dT.name := by
  obtain ⟨hstates, hctrl, _⟩ := (profileDictIsValid_iff cat dT).mp hdT
  obtain ⟨bs, hflat, hbind, _, hname, _, hc, _⟩ := fromDict_elim hpT
  refine ⟨by rw [hc, if_pos hctrl], ?_, ?_, ?_, ?_, hname⟩
  · intro e he
    rw [hbind] at he
    rcases mem_aset he with hm | hm
    · rcases flattenBindings_inv dT.bindings [] bs hflat e hm with hm' | hm'
      · cases hm'
      · obtain ⟨ent, hent⟩ := mem_akeys_iff.mp hm'.1
        have := hstates (e.1.1, ent) hent
        simpa using this
    · subst hm
      decide
  · rw [hbind]
    exact nodup_akeys_aset _ _ (flattenBindings_nodup dT.bindings [] bs hflat (by simp [akeys]))
  · intro e he
    rw [hbind] at he
    rcases mem_aset he with hm | hm
    · rcases flattenBindings_inv dT.bindings [] bs hflat e hm with hm' | hm'
      · cases hm'
      · exact hm'.2
    · subst hm
      decide
  · rw [hbind]
    exact aset_ne_nil _ _ _

/-- Saving a profile whose controller is bound to a canonical catalog key, whose
binding states are enumerated, keys unique and actions non-empty, produces a
serialized dict that passes `profile_is_valid` and carries the profile's name. -/
theorem savedDict_valid (cat : Catalog) (p : Profile) (k : String)
    (hkn : ∀ e ∈ cat, e.2 = e.1)
    (hctrl : p.controller = some k) (hkmem : k ∈ catKeys cat)
    (hstates : ∀ e ∈ p.bindings, e.1.1 ∈ StateSet)
    (hnodup : (akeys p.bindings).Nodup)
    (hne : ∀ e ∈ p.bindings, e.2 ≠ "")
    (hnonempty : p.bindings ≠ []) :
    ∃ d', toDict cat p = some d' ∧ profileDictIsValid cat d' = true ∧
      d'.name = p.name ∧ d'.bindings = groupBindings p.bindings := by
  have hname : ctrlName cat k = k := ctrlName_self hkn hkmem
  refine ⟨{ name := p.name, size := p.size, controller := k,
            quickSelect := p.quickSelect, bindings := groupBindings p.bindings,
            axesBindings := p.axesBindings },
    by simp [toDict, hctrl, hname], ?_, rfl, rfl⟩
  rw [profileDictIsValid_iff]
  refine ⟨?_, hkmem, ?_⟩
  · intro e he
    have hkmem' : e.1 ∈ akeys (groupBindings p.bindings) :=
      mem_akeys_iff.mpr ⟨e.2, he⟩
    have hsub := akeys_foldl_groupStep_subset p.bindings [] hkmem'
    rw [akeys_nil, List.nil_append, List.mem_map] at hsub
    obtain ⟨x, hx, hxe⟩ := hsub
    rw [← hxe]
    exact hstates x hx
  · have hcanon := canonN_groupBindings p.bindings hne
    have hperm := ungroup_groupBindings_perm p.bindings hnodup
    have hkeysU : (akeys (ungroup (groupBindings p.bindings))).Nodup :=
      ((hperm.map Prod.fst).symm).nodup hnodup
    have hflat : flattenBindings (groupBindings p.bindings) (some []) =
        some (ungroup (groupBindings p.bindings)) := by
      have := flattenBindings_eq (groupBindings p.bindings) []
        (fun e he ka hka => (hcanon.2 e he).2.2 ka hka)
        (by simpa using hkeysU)
      simpa using this
    have hgne : groupBindings p.bindings ≠ [] := groupBindings_ne_nil _ hnonempty
    have hie : (groupBindings p.bindings).isEmpty = false := by
      cases hgb : groupBindings p.bindings with
      | nil => exact absurd hgb hgne
      | cons a l => rfl
    rw [fromDict]
    simp only [hie, Bool.false_eq_true, if_false]
    rw [hflat]
    simp

theorem mem_profile_list_of_saved (cat : Catalog) (slug : String → String) (st' : Store)
    (f : String) (d : ProfileDict)
    (hf : f ∈ listFiles st' false)
    (hp : f ≠ "placeholder")
    (hload : alookup st'.userProfiles f = some d)
    (hvalid : profileDictIsValid cat d = true) :
    d.name ∈ get_profile_list cat slug st' false := by
  have hloadP : loadProfile slug st' f = some d := by
    unfold loadProfile
    rw [hload]
  have hfv : profileFileIsValid cat slug st' f = true := by
    unfold profileFileIsValid
    rw [if_neg hp, hloadP]
    exact hvalid
  rw [get_profile_list, mem_sortStrings]
  exact List.mem_filterMap.mpr ⟨f, hf, by rw [if_pos hfv, hloadP]; rfl⟩


theorem findProfileRest_eval (cat : Catalog) (slug : String → String) (st₁ : Store)
    (c : String) (buttons axes : Nat) (ups : List String)
    (huser' : c ∉ ups)
    (hdflt' : c ∉ get_profile_list cat slug st₁ true)
    (p : Profile) (st₂ : Store)
    (hcopy' : copy_profile cat slug st₁
      (if stdGamepadName buttons axes ∈ get_profile_list cat slug st₁ true
       then stdGamepadName buttons axes
       else "Standard Gamepad (18 Buttons 4 Axes)") c = some (p, st₂))
    (hpname : p.name = c) (hcne : c ≠ "") :
    findProfileRest cat slug st₁ c buttons axes ups =
      (if c ∈ catKeys cat then
        match saveProfile cat slug { st₂ with assoc := aset st₂.assoc c c }
            { p with controller := some c } with
        | none => none
        | some st₄ => some (c, st₄)
      else some (c, { st₂ with assoc := aset st₂.assoc c c })) := by
  have hupd : update_controllers st₂ c p.name =
      { st₂ with assoc := aset st₂.assoc c c } := by
    unfold update_controllers
    rw [hpname, if_pos hcne]
  simp only [findProfileRest]
  rw [if_neg huser', if_neg hdflt', hcopy']
  show (if c ∈ catKeys cat then
      match saveProfile cat slug (update_controllers st₂ c p.name)
          { p with controller := some c } with
      | none => none
      | some st₄ => some (p.name, st₄)
    else some (p.name, update_controllers st₂ c p.name)) =
    (if c ∈ catKeys cat then
      match saveProfile cat slug { st₂ with assoc := aset st₂.assoc c c }
          { p with controller := some c } with
      | none => none
      | some st₄ => some (c, st₄)
    else some (c, { st₂ with assoc := aset st₂.assoc c c }))
  rw [hupd, hpname]

theorem find_profile_hit (cat : Catalog) (slug : String → String) (st' : Store)
    (c : String) (buttons axes : Nat)
    (ha : alookup st'.assoc c = some c)
    (hmem : c ∈ get_profile_list cat slug st' false) :
    find_profile cat slug st' c buttons axes = some (c, st') := by
  simp only [find_profile]
  rw [ha]
  show (if c ∈ get_profile_list cat slug st' false then some (c, st')
    else findProfileRest cat slug (update_controllers st' c "") c buttons axes
      (get_profile_list cat slug st' false)) = some (c, st')
  rw [if_pos hmem]

/-- C8: `find_profile` is idempotent for a never-seen controller.  Hypotheses: catalog
keys are the canonical names (spec invariant), the controller name is non-empty, has
no association record and no existing user or default profile of that name, its
slugified filename is fresh and not the reserved "placeholder", and the template the
function would choose loads as a valid profile.  Then the first call returns the
controller's own name after appending exactly one new (valid) profile file and
recording the controller→profile association, and the second call returns the same
name with the store completely untouched. -/
theorem c8_find_profile_idempotent
    (cat : Catalog) (slug : String → String) (st : Store) (c : String)
    (buttons axes : Nat)
    (hkn : ∀ e ∈ cat, e.2 = e.1)
    (hcne : c ≠ "")
    (hassoc : alookup st.assoc c = none)
    (huser : c ∉ get_profile_list cat slug st false)
    (hdflt : c ∉ get_profile_list cat slug st true)
    (hfresh : alookup st.userProfiles (slug c) = none)
    (hslugp : slug c ≠ "placeholder")
    (hTv : profileFileIsValid cat slug st (chooseTemplate cat slug st buttons axes)
      = true) :
    ∃ st' d, find_profile cat slug st c buttons axes = some (c, st') ∧
      st'.userProfiles = st.userProfiles ++ [(slug c, d)] ∧
      st'.defaultProfiles = st.defaultProfiles ∧
      st'.assoc = aset st.assoc c c ∧
      d.name = c ∧ profileDictIsValid cat d = true ∧
      find_profile cat slug st' c buttons axes = some (c, st') := by
  obtain ⟨hTp, dT, hdTload, hdTvalid⟩ := profileFileIsValid_elim hTv
  have hfromsome := ((profileDictIsValid_iff cat dT).mp hdTvalid).2.2
  obtain ⟨pT, hpT⟩ : ∃ pT, fromDict cat dT = some pT := by
    cases hf : fromDict cat dT with
    | none => rw [hf] at hfromsome; cases hfromsome
    | some q => exact ⟨q, rfl⟩
  obtain ⟨hctrlT, hstatesT, hnodupT, hneT, hnonT, _⟩ := fromDict_props hdTvalid hpT
  have hdctrlmem : dT.controller ∈ catKeys cat :=
    ((profileDictIsValid_iff cat dT).mp hdTvalid).2.1
  have hget : get_profile cat slug st (chooseTemplate cat slug st buttons axes)
      = some pT := by
    unfold get_profile
    rw [if_pos hTv, hdTload]
    simpa using hpT
  obtain ⟨d₁, hd₁, hd₁valid, hd₁name, _⟩ :=
    savedDict_valid cat { pT with name := c } dT.controller hkn hctrlT hdctrlmem
      hstatesT hnodupT hneT hnonT
  have hfreshmem : slug c ∉ akeys st.userProfiles := (alookup_eq_none_iff _ _).mp hfresh
  have hcopy : copy_profile cat slug st (chooseTemplate cat slug st buttons axes) c =
      some ({ pT with name := c },
        { st with userProfiles := aset st.userProfiles (slug c) d₁ }) := by
    unfold copy_profile
    rw [hget]
    show (saveProfile cat slug st { pT with name := c }).map
        (fun st' => ({ pT with name := c }, st')) =
      some ({ pT with name := c },
        { st with userProfiles := aset st.userProfiles (slug c) d₁ })
    unfold saveProfile
    rw [hd₁]
    rfl
  have hstep₀ : find_profile cat slug st c buttons axes =
      findProfileRest cat slug st c buttons axes
        (get_profile_list cat slug st false) := by
    simp only [find_profile]
    rw [hassoc]
  have hrest := findProfileRest_eval cat slug st c buttons axes
    (get_profile_list cat slug st false) huser hdflt { pT with name := c }
    { st with userProfiles := aset st.userProfiles (slug c) d₁ } hcopy rfl hcne
  by_cases hck : c ∈ catKeys cat
  · obtain ⟨d₂, hd₂, hd₂valid, hd₂name, _⟩ :=
      savedDict_valid cat { pT with name := c, controller := some c } c hkn rfl hck
        hstatesT hnodupT hneT hnonT
    have hd₂c : d₂.name = c := hd₂name
    have hsave₂ : saveProfile cat slug
        { st with userProfiles := aset st.userProfiles (slug c) d₁,
                  assoc := aset st.assoc c c }
        { pT with name := c, controller := some c } = some
        { st with assoc := aset st.assoc c c,
                  userProfiles := aset (aset st.userProfiles (slug c) d₁) (slug c) d₂ } := by
      unfold saveProfile
      rw [hd₂]
      rfl
    refine ⟨{ st with assoc := aset st.assoc c c,
                      userProfiles :=
                        aset (aset st.userProfiles (slug c) d₁) (slug c) d₂ },
      d₂, ?_, ?_, rfl, rfl, hd₂c, hd₂valid, ?_⟩
    · rw [hstep₀, hrest, if_pos hck]
      show (match saveProfile cat slug
          { st with userProfiles := aset st.userProfiles (slug c) d₁,
                    assoc := aset st.assoc c c }
          { pT with name := c, controller := some c } with
        | none => none
        | some st₄ => some (c, st₄)) =
        some (c, { st with assoc := aset st.assoc c c,
                           userProfiles :=
                             aset (aset st.userProfiles (slug c) d₁) (slug c) d₂ })
      rw [hsave₂]
    · show aset (aset st.userProfiles (slug c) d₁) (slug c) d₂
        = st.userProfiles ++ [(slug c, d₂)]
      rw [aset_append_fresh _ _ _ hfreshmem, aset_append_last _ _ _ _ hfreshmem]
    · have hload : alookup (aset (aset st.userProfiles (slug c) d₁) (slug c) d₂) (slug c)
          = some d₂ := alookup_aset_self _ _ _
      have hfile : slug c ∈ akeys (aset (aset st.userProfiles (slug c) d₁) (slug c) d₂)
          ++ [] := by
        rw [List.append_nil]
        exact mem_akeys_iff.mpr ⟨d₂, alookup_some_mem hload⟩
      have hmem := mem_profile_list_of_saved cat slug
        { st with assoc := aset st.assoc c c,
                  userProfiles := aset (aset st.userProfiles (slug c) d₁) (slug c) d₂ }
        (slug c) d₂ hfile hslugp hload hd₂valid
      rw [hd₂c] at hmem
      exact find_profile_hit cat slug _ c buttons axes (alookup_aset_self _ _ _) hmem
  · have hd₁c : d₁.name = c := hd₁name
    refine ⟨{ st with assoc := aset st.assoc c c,
                      userProfiles := aset st.userProfiles (slug c) d₁ },
      d₁, ?_, ?_, rfl, rfl, hd₁c, hd₁valid, ?_⟩
    · rw [hstep₀, hrest, if_neg hck]
    · show aset st.userProfiles (slug c) d₁ = st.userProfiles ++ [(slug c, d₁)]
      exact aset_append_fresh _ _ _ hfreshmem
    · have hload : alookup (aset st.userProfiles (slug c) d₁) (slug c) = some d₁ :=
        alookup_aset_self _ _ _
      have hfile : slug c ∈ akeys (aset st.userProfiles (slug c) d₁) ++ [] := by
        rw [List.append_nil]
        exact mem_akeys_iff.mpr ⟨d₁, alookup_some_mem hload⟩
      have hmem := mem_profile_list_of_saved cat slug
        { st with assoc := aset st.assoc c c,
                  userProfiles := aset st.userProfiles (slug c) d₁ }
        (slug c) d₁ hfile hslugp hload hd₁valid
      rw [hd₁c] at hmem
      exact find_profile_hit cat slug _ c buttons axes (alookup_aset_self _ _ _) hmem

/-- An identity slugification for the witness store (names already slug-shaped). -/
def slugId : String → String := fun s => s

/-- The shipped standard-gamepad template document for the witness store. -/
def dStd : ProfileDict :=
  { name := "Standard Gamepad (18 Buttons 4 Axes)"
    size := (18, 4)
    controller := "DualShock 4"
    quickSelect := ""
    bindings := [("all", [("0", "Undo")])]
    axesBindings := [] }

/-- A witness store: no associations, no user profiles, one default template. -/
def stEx : Store :=
  { assoc := []
    userProfiles := []
    defaultProfiles := [("Standard Gamepad (18 Buttons 4 Axes)", dStd)] }

/-- Witness for C8: the hypotheses discharged at the concrete store `stEx`, catalog
`catEx`, identity slug and the never-seen controller name "My Pad". -/
theorem c8_witness :
    ((∀ e ∈ catEx, e.2 = e.1) ∧
      ("My Pad" : String) ≠ "" ∧
      alookup stEx.assoc "My Pad" = none ∧
      ("My Pad" : String) ∉ get_profile_list catEx slugId stEx false ∧
      ("My Pad" : String) ∉ get_profile_list catEx slugId stEx true ∧
      alookup stEx.userProfiles (slugId "My Pad") = none ∧
      slugId "My Pad" ≠ "placeholder" ∧
      profileFileIsValid catEx slugId stEx (chooseTemplate catEx slugId stEx 18 4)
        = true) ∧
    (∃ st' d, find_profile catEx slugId stEx "My Pad" 18 4 = some ("My Pad", st') ∧
      st'.userProfiles = stEx.userProfiles ++ [(slugId "My Pad", d)] ∧
      st'.defaultProfiles = stEx.defaultProfiles ∧
      st'.assoc = aset stEx.assoc "My Pad" "My Pad" ∧
      d.name = "My Pad" ∧ profileDictIsValid catEx d = true ∧
      find_profile catEx slugId st' "My Pad" 18 4 = some ("My Pad", st')) :=
  ⟨⟨by decide, by decide, by decide, by decide, by decide, by decide, by decide,
    by decide⟩,
   c8_find_profile_idempotent catEx slugId stEx "My Pad" 18 4 (by decide) (by decide)
     (by decide) (by decide) (by decide) (by decide) (by decide) (by decide)⟩
